import Mathlib

/-
Verification of the dual sequential task-queue scheduler implemented in
src/automation/sequential_browser_manager.py (class SequentialBrowserManager
and its module-level facade functions).

The Python class keeps, PER USER EMAIL:
  * user_post_queues / user_renew_queues : defaultdict(deque) of operations;
  * user_post_processors / user_renew_processors : dict email -> single-worker
    ThreadPoolExecutor draining that queue;
  * user_status : defaultdict(email -> status dict) of flags and counters;
  * one shared threading.Lock.

We embed the manager as a small-step transition system: the shared state is a
structure GState, and each atomic section of the Python code (an append under
the lock, a pop under the lock, the unlocked status writes, the executor call
boundaries, the cleanup callback) is one Step constructor.  Worker threads are
modelled explicitly with a program counter (Pc) that follows the body of
_process_post_queue / _process_renew_queue.  Ghost histories (enqueue order and
executor-invocation order per kind) are appended exactly where the code
enqueues and where it invokes the executor; they are the formal counterpart of
the spec suggestion of a test executor stub that records call order.

python dict / defaultdict values are modelled as association lists with a
default: reading a missing key of a defaultdict materialises the key, exactly
as in Python.
-/

/-- The two queue kinds of the manager (operation dict field `type`). -/

inductive Kind : Type
  | post
  | renew
deriving DecidableEq, Repr

/-- Payload of a posting operation (`data` dict built in add_posting_operation). -/

structure PostPayload where
  title : String
  description : String
  price : Int
  image_path : String
deriving DecidableEq, Repr

/-- Kind-specific payload: the `data` field of the operation dict. -/

inductive OpPayload : Type
  | post (d : PostPayload)
  | renew (renewal_count : Nat)
deriving DecidableEq, Repr

/-- The `type` field of the operation dict, determined by the payload. -/

def OpPayload.kind : OpPayload → Kind
  | .post _ => .post
  | .renew _ => .renew

/-- An operation dict as built by add_posting_operation / add_renewing_operation:
`{type, email, data, timestamp}` (the timestamp is an abstract counter). -/

structure Operation where
  email : String
  payload : OpPayload
  timestamp : Nat
deriving DecidableEq, Repr

/-- Result dict returned by login_and_post / renew_listings; the manager never
inspects anything in it, so only the success flag and message are kept. -/

structure ExecResult where
  success : Bool
  message : String
deriving DecidableEq, Repr

/-- One entry of the user_status defaultdict (lines 55-65 of the source). -/

structure UserStatus where
  post_active : Bool
  renew_active : Bool
  current_post_operation : Option String
  current_renew_operation : Option String
  total_posts_queued : Nat
  total_renews_queued : Nat
  posts_completed : Nat
  renews_completed : Nat
  last_activity : Option Nat
deriving DecidableEq, Repr

/-- The default status entry produced by the defaultdict factory lambda. -/

def defaultStatus : UserStatus :=
  ⟨false, false, none, none, 0, 0, 0, 0, none⟩

/-- Field `post_active` / `renew_active` selected by kind. -/

def UserStatus.activeK : UserStatus → Kind → Bool
  | u, .post => u.post_active
  | u, .renew => u.renew_active

/-- Write `post_active` / `renew_active` selected by kind. -/

def UserStatus.setActiveK : UserStatus → Kind → Bool → UserStatus
  | u, .post, b => { u with post_active := b }
  | u, .renew, b => { u with renew_active := b }

/-- Field `current_post_operation` / `current_renew_operation` selected by kind. -/

def UserStatus.currentOpK : UserStatus → Kind → Option String
  | u, .post => u.current_post_operation
  | u, .renew => u.current_renew_operation

/-- Write the current-operation descriptor selected by kind. -/

def UserStatus.setCurrentOpK : UserStatus → Kind → Option String → UserStatus
  | u, .post, v => { u with current_post_operation := v }
  | u, .renew, v => { u with current_renew_operation := v }

/-- Field `total_posts_queued` / `total_renews_queued` selected by kind. -/

def UserStatus.totalQueuedK : UserStatus → Kind → Nat
  | u, .post => u.total_posts_queued
  | u, .renew => u.total_renews_queued

/-- Increment the queued counter of a kind (the `+= 1` at lines 97 / 125). -/

def UserStatus.incTotalQueuedK : UserStatus → Kind → UserStatus
  | u, .post => { u with total_posts_queued := u.total_posts_queued + 1 }
  | u, .renew => { u with total_renews_queued := u.total_renews_queued + 1 }

/-- Field `posts_completed` / `renews_completed` selected by kind. -/

def UserStatus.completedK : UserStatus → Kind → Nat
  | u, .post => u.posts_completed
  | u, .renew => u.renews_completed

/-- Increment the completed counter of a kind (lines 218 / 274). -/

def UserStatus.incCompletedK : UserStatus → Kind → UserStatus
  | u, .post => { u with posts_completed := u.posts_completed + 1 }
  | u, .renew => { u with renews_completed := u.renews_completed + 1 }

/-- Write `last_activity` (lines 206 / 262). -/

def UserStatus.setLastActivity (u : UserStatus) (t : Option Nat) : UserStatus :=
  { u with last_activity := t }

/-- The descriptor string stored in `current_{kind}_operation`. -/

def kindLabel : Kind → String
  | .post => "Posting"
  | .renew => "Renewing"

/- ----------------------------------------------------------------------
Association-list model of python dict / defaultdict values.
`dget d m k` is `m[k]` when the read cannot materialise (value lookup with
default `d`); `dmodify m k f d` is defaultdict read-then-update: it applies
`f` to the stored value, inserting `f d` when the key is absent;
`dmat d m k` is a pure defaultdict READ of `m[k]`, which materialises the
key with the default value when absent, as python does.
---------------------------------------------------------------------- -/

/-- Lookup with default, not materialising. -/

def dget {α : Type} (d : α) : List (String × α) → String → α
  | [], _ => d
  | (k, v) :: rest, key => if k = key then v else dget d rest key

/-- defaultdict read-then-update: modify the entry, inserting `f d` if absent. -/

def dmodify {α : Type} : List (String × α) → String → (α → α) → α → List (String × α)
  | [], key, f, d => [(key, f d)]
  | (k, v) :: rest, key, f, d =>
      if k = key then (k, f v) :: rest else (k, v) :: dmodify rest key f d

/-- defaultdict read: materialises the key with the default when absent. -/

def dmat {α : Type} (d : α) (m : List (String × α)) (key : String) : List (String × α) :=
  dmodify m key id d

inductive Pc : Type
  | ready
  | statusUpdate (op : Operation)
  | invoking (op : Operation)
  | inFlight (op : Operation)
  | counting (op : Operation)
  | clearing
  | finished
deriving DecidableEq, Repr

/-- A processor worker: bound to one email and one queue kind. -/

structure Thread where
  email : String
  tkind : Kind
  pc : Pc
deriving DecidableEq, Repr

/-- Whole-manager shared state.  The first five fields are the five instance
dicts of SequentialBrowserManager (processor dicts are kept as their key
lists, the ThreadPoolExecutor objects themselves carrying no state we track);
`threads` is the set of live worker tasks; the four logs are ghost observation
histories (submission order and executor-invocation order per kind); `time` is
an abstract clock incremented at each timezone.now() call. -/

structure GState where
  postQueues : List (String × List Operation)
  renewQueues : List (String × List Operation)
  postProcs : List String
  renewProcs : List String
  status : List (String × UserStatus)
  threads : List Thread
  postEnqHist : List Operation
  renewEnqHist : List Operation
  postExecHist : List Operation
  renewExecHist : List Operation
  time : Nat
deriving DecidableEq, Repr

/-- The freshly constructed manager (lines 45-70): everything empty. -/

def initState : GState :=
  ⟨[], [], [], [], [], [], [], [], [], [], 0⟩

/-- user_post_queues / user_renew_queues selected by kind. -/

def GState.queues : GState → Kind → List (String × List Operation)
  | s, .post => s.postQueues
  | s, .renew => s.renewQueues

/-- Replace the queue dict of one kind. -/

def GState.setQueues : GState → Kind → List (String × List Operation) → GState
  | s, .post, q => { s with postQueues := q }
  | s, .renew, q => { s with renewQueues := q }

/-- user_post_processors / user_renew_processors key set, selected by kind. -/

def GState.procs : GState → Kind → List String
  | s, .post => s.postProcs
  | s, .renew => s.renewProcs

/-- Replace the processor key set of one kind. -/

def GState.setProcs : GState → Kind → List String → GState
  | s, .post, p => { s with postProcs := p }
  | s, .renew, p => { s with renewProcs := p }

/-- Ghost submission history of one kind. -/

def GState.enqHist : GState → Kind → List Operation
  | s, .post => s.postEnqHist
  | s, .renew => s.renewEnqHist

/-- Replace the ghost submission history of one kind. -/

def GState.setEnqHist : GState → Kind → List Operation → GState
  | s, .post, l => { s with postEnqHist := l }
  | s, .renew, l => { s with renewEnqHist := l }

/-- Ghost executor-invocation history of one kind. -/

def GState.execHist : GState → Kind → List Operation
  | s, .post => s.postExecHist
  | s, .renew => s.renewExecHist

/-- Replace the ghost executor-invocation history of one kind. -/

def GState.setExecHist : GState → Kind → List Operation → GState
  | s, .post, l => { s with postExecHist := l }
  | s, .renew, l => { s with renewExecHist := l }

/-- The status entry of an email, with defaultdict semantics for reading. -/

def statusOf (s : GState) (e : String) : UserStatus :=
  dget defaultStatus s.status e

/-- Mutate (with defaultdict materialisation) the status entry of an email:
models `self.user_status[email][...] = ...` on the defaultdict. -/

def modifyStatus (s : GState) (e : String) (f : UserStatus → UserStatus) : GState :=
  { s with status := dmodify s.status e f defaultStatus }

/-- The queue of one email for one kind, with defaultdict read semantics. -/

def queueOf (s : GState) (k : Kind) (e : String) : List Operation :=
  dget [] (s.queues k) e

/- ----------------------------------------------------------------------
Atomic transitions, translated section by section from the source.
---------------------------------------------------------------------- -/

/-- Models _start_post_processor / _start_renew_processor (lines 134-179): early
return when the email already has a processor entry; otherwise register the
executor, set the active flag and submit the run-loop task. -/

def startProcessorFn (s : GState) (e : String) (k : Kind) : GState :=
  if e ∈ s.procs k then s
  else
    let s1 := s.setProcs k (s.procs k ++ [e])
    let s2 := modifyStatus s1 e (fun u => u.setActiveK k true)
    { s2 with threads := s2.threads ++ [⟨e, k, .ready⟩] }

/-- add_posting_operation / add_renewing_operation (lines 72-132): build the
operation dict, then under the lock append it to the queue of its kind,
increment the queued counter, and lazily start the processor when the active
flag is down.  The ghost submission history is extended at the same point. -/

def enqueueCoreFn (s : GState) (e : String) (p : OpPayload) : GState :=
  let k := p.kind
  let op : Operation := ⟨e, p, s.time⟩
  let s1 := { s with time := s.time + 1 }
  let s2 := s1.setQueues k (dmodify (s1.queues k) e (fun q => q ++ [op]) [])
  let s3 := modifyStatus s2 e (fun u => u.incTotalQueuedK k)
  s3.setEnqHist k (s3.enqHist k ++ [op])

def enqueueFn (s : GState) (e : String) (p : OpPayload) : GState :=
  let s4 := enqueueCoreFn s e p
  if (statusOf s4 e).activeK p.kind then s4 else startProcessorFn s4 e p.kind

/-- Locked pop (lines 195-197 / 251-253) when the queue is non-empty: remove
the head, the worker proceeds to the status-update section holding the popped
operation. -/

def popSomeFn (s : GState) (pre post : List Thread) (e : String) (k : Kind)
    (op : Operation) (rest : List Operation) : GState :=
  let s1 := s.setQueues k (dmodify (s.queues k) e (fun _ => rest) [])
  { s1 with threads := pre ++ ⟨e, k, .statusUpdate op⟩ :: post }

/-- Locked pop attempt finding an empty queue (lines 198-201 / 254-257): mark
the kind inactive and leave the loop; the truthiness test on the defaultdict
materialises the queue key. -/

def popEmptyFn (s : GState) (pre post : List Thread) (e : String) (k : Kind) : GState :=
  let s1 := s.setQueues k (dmat [] (s.queues k) e)
  let s2 := modifyStatus s1 e (fun u => u.setActiveK k false)
  { s2 with threads := pre ++ ⟨e, k, .finished⟩ :: post }

/-- The UNLOCKED status writes of lines 204-206 / 260-262: set the
current-operation descriptor and last_activity. -/

def setCurrentFn (s : GState) (pre post : List Thread) (e : String) (k : Kind)
    (op : Operation) : GState :=
  let s1 := modifyStatus s e
    (fun u => (u.setCurrentOpK k (some (kindLabel k))).setLastActivity (some s.time))
  let s2 := { s1 with time := s1.time + 1 }
  { s2 with threads := pre ++ ⟨e, k, .invoking op⟩ :: post }

/-- Entering _execute_posting / _execute_renewing (line 214 / 270): the
executor invocation begins; the ghost invocation history records it. -/

def execBeginFn (s : GState) (pre post : List Thread) (e : String) (k : Kind)
    (op : Operation) : GState :=
  let s1 := s.setExecHist k (s.execHist k ++ [op])
  { s1 with threads := pre ++ ⟨e, k, .inFlight op⟩ :: post }

/-- The executor call finishes: `some r` is a normal return carrying the
result dict (control reaches the completed-counter update), `none` is an
unhandled exception (control jumps to the except block of lines 222-225 /
278-281, which only logs, then rejoins the loop at the clearing write). -/

def execEndFn (s : GState) (pre post : List Thread) (e : String) (k : Kind)
    (op : Operation) (res : Option ExecResult) : GState :=
  match res with
  | some _ => { s with threads := pre ++ ⟨e, k, .counting op⟩ :: post }
  | none => { s with threads := pre ++ ⟨e, k, .clearing⟩ :: post }

/-- Locked completed-counter increment (lines 217-218 / 273-274), performed
only on the normal-return path, whatever the result dict contains. -/

def countCompletedFn (s : GState) (pre post : List Thread) (e : String) (k : Kind) : GState :=
  let s1 := modifyStatus s e (fun u => u.incCompletedK k)
  { s1 with threads := pre ++ ⟨e, k, .clearing⟩ :: post }

/-- The UNLOCKED clear of the current-operation descriptor (line 228 / 284),
followed by the inter-operation sleep; the worker loops back to the pop. -/

def clearCurrentFn (s : GState) (pre post : List Thread) (e : String) (k : Kind) : GState :=
  let s1 := modifyStatus s e (fun u => u.setCurrentOpK k none)
  { s1 with threads := pre ++ ⟨e, k, .ready⟩ :: post }

/-- Models _cleanup_post_processor / _cleanup_renew_processor (lines 335-363), run by
the done-callback once the loop function returned: under the lock drop the
processor entry, lower the active flag, clear the descriptor; the finished
worker disappears. -/

def cleanupFn (s : GState) (pre post : List Thread) (e : String) (k : Kind) : GState :=
  let s1 := s.setProcs k ((s.procs k).erase e)
  let s2 := modifyStatus s1 e (fun u => (u.setActiveK k false).setCurrentOpK k none)
  { s2 with threads := pre ++ post }

/- ----------------------------------------------------------------------
Status reads (get_user_status, lines 365-381; get_all_users_status, lines
383-404).  Both run under the lock; both perform defaultdict reads that
materialise missing keys.
---------------------------------------------------------------------- -/

/-- The dict returned by get_user_status: a copy of the status entry plus the
three queue-size fields added at lines 377-380. -/

structure StatusSnapshot where
  base : UserStatus
  post_queue_size : Nat
  renew_queue_size : Nat
  total_queue_size : Nat
deriving DecidableEq, Repr

/-- The snapshot value computed by get_user_status for one email. -/

def snapshotOf (s : GState) (e : String) : StatusSnapshot :=
  ⟨statusOf s e, (dget [] s.postQueues e).length, (dget [] s.renewQueues e).length,
    (dget [] s.postQueues e).length + (dget [] s.renewQueues e).length⟩

/-- The materialisation side effect of the three defaultdict reads of
get_user_status on email `e`. -/

def materializeFn (s : GState) (e : String) : GState :=
  { s with
    status := dmat defaultStatus s.status e,
    postQueues := dmat [] s.postQueues e,
    renewQueues := dmat [] s.renewQueues e }

/-- get_user_status (lines 365-381): returns the snapshot and the state after
the defaultdict reads. -/

def getUserStatusFn (s : GState) (e : String) : StatusSnapshot × GState :=
  (snapshotOf s e, materializeFn s e)

/-- First-occurrence deduplication, modelling the set() of line 392 (the set
iteration order is arbitrary in python; per-key content is order-independent). -/

def uniqKeys : List String → List String
  | [] => []
  | k :: rest => if k ∈ rest then uniqKeys rest else k :: uniqKeys rest

/-- The key union of line 392-396: all emails known to any of the three dicts. -/

def allEmailsOf (s : GState) : List String :=
  uniqKeys (s.status.map Prod.fst ++ s.postQueues.map Prod.fst ++
    s.renewQueues.map Prod.fst)

/-- get_all_users_status (lines 383-404): one snapshot per known email.  The
defaultdict reads inside the loop materialise every listed email in the three
dicts (materialisation never changes any dget value, so the snapshots may be
computed against the entry state). -/

def getAllUsersStatusFn (s : GState) : List (String × StatusSnapshot) × GState :=
  let es := allEmailsOf s
  (es.map fun e => (e, snapshotOf s e), es.foldl materializeFn s)

/- ----------------------------------------------------------------------
The step relation: any interleaving of producer calls, status reads and
worker-loop sections.  shutdown() is a process-exit hook and is outside the
modelled operations.
---------------------------------------------------------------------- -/

/-- One atomic transition of the manager. -/

inductive Step : GState → GState → Prop
  | enqueue (s : GState) (e : String) (p : OpPayload) :
      Step s (enqueueFn s e p)
  | statusRead (s : GState) (e : String) :
      Step s (getUserStatusFn s e).2
  | allStatusRead (s : GState) :
      Step s (getAllUsersStatusFn s).2
  | popSome (s : GState) (pre post : List Thread) (e : String) (k : Kind)
      (op : Operation) (rest : List Operation)
      (hth : s.threads = pre ++ ⟨e, k, .ready⟩ :: post)
      (hq : queueOf s k e = op :: rest) :
      Step s (popSomeFn s pre post e k op rest)
  | popEmpty (s : GState) (pre post : List Thread) (e : String) (k : Kind)
      (hth : s.threads = pre ++ ⟨e, k, .ready⟩ :: post)
      (hq : queueOf s k e = []) :
      Step s (popEmptyFn s pre post e k)
  | setCurrent (s : GState) (pre post : List Thread) (e : String) (k : Kind)
      (op : Operation)
      (hth : s.threads = pre ++ ⟨e, k, .statusUpdate op⟩ :: post) :
      Step s (setCurrentFn s pre post e k op)
  | execBegin (s : GState) (pre post : List Thread) (e : String) (k : Kind)
      (op : Operation)
      (hth : s.threads = pre ++ ⟨e, k, .invoking op⟩ :: post) :
      Step s (execBeginFn s pre post e k op)
  | execEnd (s : GState) (pre post : List Thread) (e : String) (k : Kind)
      (op : Operation) (res : Option ExecResult)
      (hth : s.threads = pre ++ ⟨e, k, .inFlight op⟩ :: post) :
      Step s (execEndFn s pre post e k op res)
  | countCompleted (s : GState) (pre post : List Thread) (e : String) (k : Kind)
      (op : Operation)
      (hth : s.threads = pre ++ ⟨e, k, .counting op⟩ :: post) :
      Step s (countCompletedFn s pre post e k)
  | clearCurrent (s : GState) (pre post : List Thread) (e : String) (k : Kind)
      (hth : s.threads = pre ++ ⟨e, k, .clearing⟩ :: post) :
      Step s (clearCurrentFn s pre post e k)
  | cleanup (s : GState) (pre post : List Thread) (e : String) (k : Kind)
      (hth : s.threads = pre ++ ⟨e, k, .finished⟩ :: post) :
      Step s (cleanupFn s pre post e k)

/-- A manager state reachable from the freshly constructed instance. -/

def Reachable (s : GState) : Prop :=
  Relation.ReflTransGen Step initState s

/- ----------------------------------------------------------------------
Module-level facade functions (lines 427-492).
---------------------------------------------------------------------- -/

/-- The acknowledgement dict returned by the two facade enqueue functions. -/

structure Ack where
  status : String
  message : String
  user_status : StatusSnapshot
deriving DecidableEq, Repr

/-- post_to_marketplace_sequential (lines 427-448): enqueue, then read the
per-user status for the acknowledgement. -/

def post_to_marketplace_sequential (s : GState) (email title description : String)
    (price : Int) (image_path : String) : Ack × GState :=
  let s1 := enqueueFn s email (.post ⟨title, description, price, image_path⟩)
  let (snap, s2) := getUserStatusFn s1 email
  (⟨"queued", "Posting operation added to queue for " ++ email, snap⟩, s2)

/-- renew_listings_sequential (lines 451-468) with the count passed explicitly. -/

def renew_listings_sequential (s : GState) (email : String) (renewal_count : Nat) :
    Ack × GState :=
  let s1 := enqueueFn s email (.renew renewal_count)
  let (snap, s2) := getUserStatusFn s1 email
  (⟨"queued", "Renewing operation added to queue for " ++ email, snap⟩, s2)

/-- renew_listings_sequential as called with the count omitted: the python
signature fills in the default renewal_count=20. -/

def renew_listings_sequential_omitted (s : GState) (email : String) : Ack × GState :=
  renew_listings_sequential s email 20

/- ----------------------------------------------------------------------
Lock discipline table.  Each constructor names one maximal atomic section of
the source that touches (or deliberately avoids) the shared dicts; underLock
records whether the section sits inside a `with self.lock:` block, directly
from the source text.
---------------------------------------------------------------------- -/

/-- The atomic code sections of SequentialBrowserManager, by source location. -/

inductive CodeSection : Type
  | enqueueSection (k : Kind)       -- lines 95-104 / 123-132 (append, counter, lazy start)
  | initialLenPrint (k : Kind)      -- line 190 / 246 (queue length read in a print)
  | popOrFinish (k : Kind)          -- lines 195-201 / 251-257 (pop or mark inactive)
  | currentOpWrite (k : Kind)       -- lines 204-206 / 260-262 (descriptor + last_activity)
  | remainingLenPrint (k : Kind)    -- line 210 / 266 (queue length read in a print)
  | executorCall (k : Kind)         -- line 214 / 270 (login_and_post / renew_listings)
  | completedUpdate (k : Kind)      -- lines 217-218 / 273-274 (completed counter)
  | currentOpClear (k : Kind)       -- line 228 / 284 (descriptor reset)
  | finalCompletedPrint (k : Kind)  -- line 235 / 291 (completed counter read in a print)
  | cleanupSection (k : Kind)       -- lines 342-348 / 357-363
  | statusReadSection               -- lines 375-381 (get_user_status)
  | allStatusReadSection            -- lines 390-404 (get_all_users_status)
deriving DecidableEq, Repr

/-- Whether the section executes inside `with self.lock:`, read off the source. -/

def underLock : CodeSection → Bool
  | .enqueueSection _ => true
  | .initialLenPrint _ => false
  | .popOrFinish _ => true
  | .currentOpWrite _ => false
  | .remainingLenPrint _ => false
  | .executorCall _ => false
  | .completedUpdate _ => true
  | .currentOpClear _ => false
  | .finalCompletedPrint _ => false
  | .cleanupSection _ => true
  | .statusReadSection => true
  | .allStatusReadSection => true

/-- Whether the section reads or mutates the shared queues or the status
aggregate. -/

def accessesShared : CodeSection → Bool
  | .executorCall _ => false
  | _ => true

/-- Whether the section MUTATES the shared queues or the status aggregate
(the three print sections and the executor call only read or touch nothing;
note that the status-read sections mutate via defaultdict materialisation). -/

def mutatesShared : CodeSection → Bool
  | .initialLenPrint _ => false
  | .remainingLenPrint _ => false
  | .finalCompletedPrint _ => false
  | .executorCall _ => false
  | _ => true

/- ----------------------------------------------------------------------
Observation helpers used to state the claims: counting worker threads and
in-flight executor invocations, and filtering histories by account.
---------------------------------------------------------------------- -/

/-- The operation a worker holds after popping it and before invoking the
executor (it is in neither the queue nor the invocation history). -/

def heldOf : Pc → List Operation
  | .statusUpdate op => [op]
  | .invoking op => [op]
  | _ => []

/-- Weighted count of the workers of one email and kind. -/

def pcCount (w : Pc → Nat) (e : String) (k : Kind) : List Thread → Nat
  | [] => 0
  | th :: rest => (if th.email = e ∧ th.tkind = k then w th.pc else 0) + pcCount w e k rest

/-- Number of workers bound to the queue of one email and kind. -/

def countThreads (e : String) (k : Kind) (ts : List Thread) : Nat :=
  pcCount (fun _ => 1) e k ts

/-- Weight 1 exactly when the executor call is in progress. -/

def flightWeight : Pc → Nat
  | .inFlight _ => 1
  | _ => 0

/-- Weight 1 from executor start until the completed-counter update. -/

def execWeight : Pc → Nat
  | .inFlight _ => 1
  | .counting _ => 1
  | _ => 0

/-- In-flight executor invocations of one email and kind. -/

def inFlightCount (e : String) (k : Kind) (ts : List Thread) : Nat :=
  pcCount flightWeight e k ts

/-- Workers of one email and kind between executor start and counter update. -/

def execPhaseCount (e : String) (k : Kind) (ts : List Thread) : Nat :=
  pcCount execWeight e k ts

/-- In-flight executor invocations of one kind across ALL accounts. -/

def sysInFlight (k : Kind) : List Thread → Nat
  | [] => 0
  | th :: rest => (if th.tkind = k then flightWeight th.pc else 0) + sysInFlight k rest

/-- Concatenated held operations of the workers of one email and kind. -/

def heldList (e : String) (k : Kind) : List Thread → List Operation
  | [] => []
  | th :: rest =>
      (if th.email = e ∧ th.tkind = k then heldOf th.pc else []) ++ heldList e k rest

/-- The operations of one account inside a history, in history order. -/

def emailOps (e : String) (l : List Operation) : List Operation :=
  l.filter (fun op => decide (op.email = e))

structure MInv (s : GState) : Prop where
  uniq : ∀ e k, countThreads e k s.threads ≤ 1
  tip : ∀ th ∈ s.threads, th.email ∈ s.procs th.tkind
  qown : ∀ e k op, op ∈ queueOf s k e → op.email = e
  hown : ∀ th ∈ s.threads, ∀ op ∈ heldOf th.pc, op.email = th.email
  cnt : ∀ e k, (statusOf s e).totalQueuedK k = (emailOps e (s.enqHist k)).length
  fifo : ∀ e k, emailOps e (s.enqHist k) =
      emailOps e (s.execHist k) ++ heldList e k s.threads ++ queueOf s k e
  cbound : ∀ e k, (statusOf s e).completedK k + execPhaseCount e k s.threads ≤
      (emailOps e (s.execHist k)).length

def samplePost : OpPayload := .post ⟨"item", "desc", 5, "img.jpg"⟩

/-- Sample posting payload for account b. -/

def samplePost2 : OpPayload := .post ⟨"thing", "text", 7, "pic.jpg"⟩

/-- The operation the first enqueue of samplePost for account a creates. -/

def opA : Operation := ⟨"a", samplePost, 0⟩

/-- The operation the second enqueue (samplePost2 for account b) creates. -/

def opB : Operation := ⟨"b", samplePost2, 1⟩

/-- Trace: enqueue a post for a, then one for b; the worker of b pops and
starts its executor first, then the worker of a does the same. -/

def t1 : GState := enqueueFn initState "a" samplePost

def t2 : GState := enqueueFn t1 "b" samplePost2

def t3 : GState := popSomeFn t2 [⟨"a", .post, .ready⟩] [] "b" .post opB []

def t4 : GState := setCurrentFn t3 [⟨"a", .post, .ready⟩] [] "b" .post opB

def t5 : GState := execBeginFn t4 [⟨"a", .post, .ready⟩] [] "b" .post opB

def t6 : GState := popSomeFn t5 [] [⟨"b", .post, .inFlight opB⟩] "a" .post opA []

def t7 : GState := setCurrentFn t6 [] [⟨"b", .post, .inFlight opB⟩] "a" .post opA

def t8 : GState := execBeginFn t7 [] [⟨"b", .post, .inFlight opB⟩] "a" .post opA

def opR : Operation := ⟨"a", .renew 5, 0⟩

/-- Trace: one renew enqueued, its executor raises, the queue drains and the
worker is cleaned up. -/

def r1 : GState := enqueueFn initState "a" (.renew 5)

def r2 : GState := popSomeFn r1 [] [] "a" .renew opR []

def r3 : GState := setCurrentFn r2 [] [] "a" .renew opR

def r4 : GState := execBeginFn r3 [] [] "a" .renew opR

def r5 : GState := execEndFn r4 [] [] "a" .renew opR none

def r6 : GState := clearCurrentFn r5 [] [] "a" .renew

def r7 : GState := popEmptyFn r6 [] [] "a" .renew

def r8 : GState := cleanupFn r7 [] [] "a" .renew

def opR1 : Operation := ⟨"a", .renew 3, 0⟩

/-- Second renew operation of the crash-isolation scenario. -/

def opR2 : Operation := ⟨"a", .renew 4, 1⟩

/-- Trace: two renews enqueued; the first executor raises, the second runs to
normal completion; queue drains, worker cleaned up. -/

def d1 : GState := enqueueFn initState "a" (.renew 3)

def d2 : GState := enqueueFn d1 "a" (.renew 4)

def d3 : GState := popSomeFn d2 [] [] "a" .renew opR1 [opR2]

def d4 : GState := setCurrentFn d3 [] [] "a" .renew opR1

def d5 : GState := execBeginFn d4 [] [] "a" .renew opR1

def d6 : GState := execEndFn d5 [] [] "a" .renew opR1 none

def d7 : GState := clearCurrentFn d6 [] [] "a" .renew

def d8 : GState := popSomeFn d7 [] [] "a" .renew opR2 []

def d9 : GState := setCurrentFn d8 [] [] "a" .renew opR2

def d10 : GState := execBeginFn d9 [] [] "a" .renew opR2

def d11 : GState := execEndFn d10 [] [] "a" .renew opR2 (some ⟨true, "ok"⟩)

def d12 : GState := countCompletedFn d11 [] [] "a" .renew

def d13 : GState := clearCurrentFn d12 [] [] "a" .renew

def d14 : GState := popEmptyFn d13 [] [] "a" .renew

def d15 : GState := cleanupFn d14 [] [] "a" .renew

theorem dget_dmodify_self {α : Type} (d : α) (m : List (String × α)) (key : String)
    (f : α → α) : dget d (dmodify m key f d) key = f (dget d m key) := by
  induction m with
  | nil => simp [dget, dmodify]
  | cons hd tl ih =>
    obtain ⟨k, v⟩ := hd
    by_cases h : k = key
    · simp [dget, dmodify, h]
    · simp [dget, dmodify, h, ih]

theorem dget_dmodify_ne {α : Type} (d d2 : α) (m : List (String × α))
    (key key2 : String) (f : α → α) (h : key2 ≠ key) :
    dget d (dmodify m key f d2) key2 = dget d m key2 := by
  have h2 : key ≠ key2 := fun hh => h hh.symm
  induction m with
  | nil => simp [dget, dmodify, h2]
  | cons hd tl ih =>
    obtain ⟨k, v⟩ := hd
    by_cases hk : k = key
    · subst hk
      simp [dget, dmodify, h2]
    · by_cases hk2 : k = key2
      · subst hk2
        simp [dget, dmodify, h2, hk]
      · simp [dget, dmodify, hk, hk2, ih]

theorem dget_dmat {α : Type} (d : α) (m : List (String × α)) (key key2 : String) :
    dget d (dmat d m key) key2 = dget d m key2 := by
  by_cases h : key2 = key
  · subst h
    simpa using dget_dmodify_self d m key2 id
  · exact dget_dmodify_ne d d m key key2 id h

/- ----------------------------------------------------------------------
Worker threads.  A processor (lines 134-179) is a single-worker
ThreadPoolExecutor running _process_post_queue / _process_renew_queue for one
email.  We model the running task as a Thread with a program counter tracking
the loop body:
  ready        : at the top of the while loop, about to take the lock and pop;
  statusUpdate : an operation was popped; about to perform the UNLOCKED status
                 writes of lines 205-206 / 261-262;
  invoking     : about to call _execute_posting / _execute_renewing;
  inFlight     : the executor call (login_and_post / renew_listings) is in
                 progress;
  counting     : the executor returned normally; about to take the lock and
                 increment the completed counter (lines 217-218 / 273-274);
  clearing     : about to perform the unlocked clear of the current-operation
                 descriptor (line 228 / 284), then loop;
  finished     : the loop exited on an empty queue; the done-callback
                 (_cleanup_post_processor / _cleanup_renew_processor) has not
                 run yet.
---------------------------------------------------------------------- -/

/-- Program counter of a processor worker inside its run loop. -/

@[simp] theorem pcCount_nil (w : Pc → Nat) (e : String) (k : Kind) :
    pcCount w e k [] = 0 := rfl

@[simp] theorem pcCount_cons (w : Pc → Nat) (e : String) (k : Kind)
    (th : Thread) (rest : List Thread) :
    pcCount w e k (th :: rest) =
      (if th.email = e ∧ th.tkind = k then w th.pc else 0) + pcCount w e k rest := rfl

@[simp] theorem pcCount_append (w : Pc → Nat) (e : String) (k : Kind)
    (l1 l2 : List Thread) :
    pcCount w e k (l1 ++ l2) = pcCount w e k l1 + pcCount w e k l2 := by
  induction l1 with
  | nil => simp
  | cons th rest ih => simp [ih]; ring

@[simp] theorem sysInFlight_nil (k : Kind) : sysInFlight k [] = 0 := rfl

@[simp] theorem sysInFlight_cons (k : Kind) (th : Thread) (rest : List Thread) :
    sysInFlight k (th :: rest) =
      (if th.tkind = k then flightWeight th.pc else 0) + sysInFlight k rest := rfl

@[simp] theorem sysInFlight_append (k : Kind) (l1 l2 : List Thread) :
    sysInFlight k (l1 ++ l2) = sysInFlight k l1 + sysInFlight k l2 := by
  induction l1 with
  | nil => simp
  | cons th rest ih => simp [ih]; ring

@[simp] theorem heldList_nil (e : String) (k : Kind) : heldList e k [] = [] := rfl

@[simp] theorem heldList_cons (e : String) (k : Kind) (th : Thread) (rest : List Thread) :
    heldList e k (th :: rest) =
      (if th.email = e ∧ th.tkind = k then heldOf th.pc else []) ++ heldList e k rest := rfl

@[simp] theorem heldList_append (e : String) (k : Kind) (l1 l2 : List Thread) :
    heldList e k (l1 ++ l2) = heldList e k l1 ++ heldList e k l2 := by
  induction l1 with
  | nil => simp
  | cons th rest ih => simp [ih]

theorem heldList_eq_nil_of_count_zero (e : String) (k : Kind) (ts : List Thread)
    (h : countThreads e k ts = 0) : heldList e k ts = [] := by
  induction ts with
  | nil => rfl
  | cons th rest ih =>
    by_cases hm : th.email = e ∧ th.tkind = k
    · simp [countThreads, hm] at h
    · simp [countThreads, hm] at h ⊢
      exact ih h

theorem pcCount_le_countThreads (w : Pc → Nat) (hw : ∀ pc, w pc ≤ 1)
    (e : String) (k : Kind) (ts : List Thread) :
    pcCount w e k ts ≤ countThreads e k ts := by
  induction ts with
  | nil => simp [countThreads]
  | cons th rest ih =>
    simp only [countThreads, pcCount_cons] at ih ⊢
    by_cases hm : th.email = e ∧ th.tkind = k
    · simp only [hm, if_pos]
      exact Nat.add_le_add (hw th.pc) ih
    · simp only [hm, if_neg, not_false_eq_true]
      exact Nat.add_le_add (Nat.le_refl 0) ih

@[simp] theorem emailOps_nil (e : String) : emailOps e [] = [] := rfl

@[simp] theorem emailOps_append (e : String) (l1 l2 : List Operation) :
    emailOps e (l1 ++ l2) = emailOps e l1 ++ emailOps e l2 := by
  simp [emailOps, List.filter_append]

/- ----------------------------------------------------------------------
Accessor laws for the state updaters.
---------------------------------------------------------------------- -/

@[simp] theorem queues_setQueues_self (s : GState) (k : Kind)
    (q : List (String × List Operation)) : (s.setQueues k q).queues k = q := by
  cases k <;> rfl

theorem queues_setQueues_ne (s : GState) (k k2 : Kind)
    (q : List (String × List Operation)) (h : k2 ≠ k) :
    (s.setQueues k q).queues k2 = s.queues k2 := by
  cases k <;> cases k2 <;> first | rfl | exact absurd rfl h

@[simp] theorem status_setQueues (s : GState) (k : Kind)
    (q : List (String × List Operation)) : (s.setQueues k q).status = s.status := by
  cases k <;> rfl

@[simp] theorem threads_setQueues (s : GState) (k : Kind)
    (q : List (String × List Operation)) : (s.setQueues k q).threads = s.threads := by
  cases k <;> rfl

@[simp] theorem procs_setQueues (s : GState) (k k2 : Kind)
    (q : List (String × List Operation)) : (s.setQueues k q).procs k2 = s.procs k2 := by
  cases k <;> cases k2 <;> rfl

@[simp] theorem enqHist_setQueues (s : GState) (k k2 : Kind)
    (q : List (String × List Operation)) : (s.setQueues k q).enqHist k2 = s.enqHist k2 := by
  cases k <;> cases k2 <;> rfl

@[simp] theorem execHist_setQueues (s : GState) (k k2 : Kind)
    (q : List (String × List Operation)) : (s.setQueues k q).execHist k2 = s.execHist k2 := by
  cases k <;> cases k2 <;> rfl

@[simp] theorem time_setQueues (s : GState) (k : Kind)
    (q : List (String × List Operation)) : (s.setQueues k q).time = s.time := by
  cases k <;> rfl

@[simp] theorem procs_setProcs_self (s : GState) (k : Kind) (p : List String) :
    (s.setProcs k p).procs k = p := by
  cases k <;> rfl

theorem procs_setProcs_ne (s : GState) (k k2 : Kind) (p : List String) (h : k2 ≠ k) :
    (s.setProcs k p).procs k2 = s.procs k2 := by
  cases k <;> cases k2 <;> first | rfl | exact absurd rfl h

@[simp] theorem queues_setProcs (s : GState) (k k2 : Kind) (p : List String) :
    (s.setProcs k p).queues k2 = s.queues k2 := by
  cases k <;> cases k2 <;> rfl

@[simp] theorem status_setProcs (s : GState) (k : Kind) (p : List String) :
    (s.setProcs k p).status = s.status := by
  cases k <;> rfl

@[simp] theorem threads_setProcs (s : GState) (k : Kind) (p : List String) :
    (s.setProcs k p).threads = s.threads := by
  cases k <;> rfl

@[simp] theorem enqHist_setProcs (s : GState) (k k2 : Kind) (p : List String) :
    (s.setProcs k p).enqHist k2 = s.enqHist k2 := by
  cases k <;> cases k2 <;> rfl

@[simp] theorem execHist_setProcs (s : GState) (k k2 : Kind) (p : List String) :
    (s.setProcs k p).execHist k2 = s.execHist k2 := by
  cases k <;> cases k2 <;> rfl

@[simp] theorem time_setProcs (s : GState) (k : Kind) (p : List String) :
    (s.setProcs k p).time = s.time := by
  cases k <;> rfl

@[simp] theorem enqHist_setEnqHist_self (s : GState) (k : Kind) (l : List Operation) :
    (s.setEnqHist k l).enqHist k = l := by
  cases k <;> rfl

theorem enqHist_setEnqHist_ne (s : GState) (k k2 : Kind) (l : List Operation)
    (h : k2 ≠ k) : (s.setEnqHist k l).enqHist k2 = s.enqHist k2 := by
  cases k <;> cases k2 <;> first | rfl | exact absurd rfl h

@[simp] theorem queues_setEnqHist (s : GState) (k k2 : Kind) (l : List Operation) :
    (s.setEnqHist k l).queues k2 = s.queues k2 := by
  cases k <;> cases k2 <;> rfl

@[simp] theorem status_setEnqHist (s : GState) (k : Kind) (l : List Operation) :
    (s.setEnqHist k l).status = s.status := by
  cases k <;> rfl

@[simp] theorem threads_setEnqHist (s : GState) (k : Kind) (l : List Operation) :
    (s.setEnqHist k l).threads = s.threads := by
  cases k <;> rfl

@[simp] theorem procs_setEnqHist (s : GState) (k k2 : Kind) (l : List Operation) :
    (s.setEnqHist k l).procs k2 = s.procs k2 := by
  cases k <;> cases k2 <;> rfl

@[simp] theorem execHist_setEnqHist (s : GState) (k k2 : Kind) (l : List Operation) :
    (s.setEnqHist k l).execHist k2 = s.execHist k2 := by
  cases k <;> cases k2 <;> rfl

@[simp] theorem time_setEnqHist (s : GState) (k : Kind) (l : List Operation) :
    (s.setEnqHist k l).time = s.time := by
  cases k <;> rfl

@[simp] theorem execHist_setExecHist_self (s : GState) (k : Kind) (l : List Operation) :
    (s.setExecHist k l).execHist k = l := by
  cases k <;> rfl

theorem execHist_setExecHist_ne (s : GState) (k k2 : Kind) (l : List Operation)
    (h : k2 ≠ k) : (s.setExecHist k l).execHist k2 = s.execHist k2 := by
  cases k <;> cases k2 <;> first | rfl | exact absurd rfl h

@[simp] theorem queues_setExecHist (s : GState) (k k2 : Kind) (l : List Operation) :
    (s.setExecHist k l).queues k2 = s.queues k2 := by
  cases k <;> cases k2 <;> rfl

@[simp] theorem status_setExecHist (s : GState) (k : Kind) (l : List Operation) :
    (s.setExecHist k l).status = s.status := by
  cases k <;> rfl

@[simp] theorem threads_setExecHist (s : GState) (k : Kind) (l : List Operation) :
    (s.setExecHist k l).threads = s.threads := by
  cases k <;> rfl

@[simp] theorem procs_setExecHist (s : GState) (k k2 : Kind) (l : List Operation) :
    (s.setExecHist k l).procs k2 = s.procs k2 := by
  cases k <;> cases k2 <;> rfl

@[simp] theorem enqHist_setExecHist (s : GState) (k k2 : Kind) (l : List Operation) :
    (s.setExecHist k l).enqHist k2 = s.enqHist k2 := by
  cases k <;> cases k2 <;> rfl

@[simp] theorem time_setExecHist (s : GState) (k : Kind) (l : List Operation) :
    (s.setExecHist k l).time = s.time := by
  cases k <;> rfl

@[simp] theorem queues_modifyStatus (s : GState) (e : String)
    (f : UserStatus → UserStatus) (k : Kind) :
    (modifyStatus s e f).queues k = s.queues k := by
  cases k <;> rfl

@[simp] theorem threads_modifyStatus (s : GState) (e : String)
    (f : UserStatus → UserStatus) : (modifyStatus s e f).threads = s.threads := rfl

@[simp] theorem procs_modifyStatus (s : GState) (e : String)
    (f : UserStatus → UserStatus) (k : Kind) :
    (modifyStatus s e f).procs k = s.procs k := by
  cases k <;> rfl

@[simp] theorem enqHist_modifyStatus (s : GState) (e : String)
    (f : UserStatus → UserStatus) (k : Kind) :
    (modifyStatus s e f).enqHist k = s.enqHist k := by
  cases k <;> rfl

@[simp] theorem execHist_modifyStatus (s : GState) (e : String)
    (f : UserStatus → UserStatus) (k : Kind) :
    (modifyStatus s e f).execHist k = s.execHist k := by
  cases k <;> rfl

@[simp] theorem time_modifyStatus (s : GState) (e : String)
    (f : UserStatus → UserStatus) : (modifyStatus s e f).time = s.time := rfl

@[simp] theorem statusOf_modifyStatus_self (s : GState) (e : String)
    (f : UserStatus → UserStatus) : statusOf (modifyStatus s e f) e = f (statusOf s e) := by
  simpa [statusOf, modifyStatus] using
    dget_dmodify_self defaultStatus s.status e f

theorem statusOf_modifyStatus_ne (s : GState) (e e2 : String)
    (f : UserStatus → UserStatus) (h : e2 ≠ e) :
    statusOf (modifyStatus s e f) e2 = statusOf s e2 := by
  simpa [statusOf, modifyStatus] using
    dget_dmodify_ne defaultStatus defaultStatus s.status e e2 f h

@[simp] theorem queues_withThreads (s : GState) (ts : List Thread) (k : Kind) :
    ({ s with threads := ts } : GState).queues k = s.queues k := by
  cases k <;> rfl

@[simp] theorem procs_withThreads (s : GState) (ts : List Thread) (k : Kind) :
    ({ s with threads := ts } : GState).procs k = s.procs k := by
  cases k <;> rfl

@[simp] theorem enqHist_withThreads (s : GState) (ts : List Thread) (k : Kind) :
    ({ s with threads := ts } : GState).enqHist k = s.enqHist k := by
  cases k <;> rfl

@[simp] theorem execHist_withThreads (s : GState) (ts : List Thread) (k : Kind) :
    ({ s with threads := ts } : GState).execHist k = s.execHist k := by
  cases k <;> rfl

@[simp] theorem statusOf_withThreads (s : GState) (ts : List Thread) (e : String) :
    statusOf ({ s with threads := ts } : GState) e = statusOf s e := rfl

@[simp] theorem queueOf_withThreads (s : GState) (ts : List Thread) (k : Kind)
    (e : String) : queueOf ({ s with threads := ts } : GState) k e = queueOf s k e := by
  simp [queueOf]

@[simp] theorem queues_withTime (s : GState) (t : Nat) (k : Kind) :
    ({ s with time := t } : GState).queues k = s.queues k := by
  cases k <;> rfl

@[simp] theorem procs_withTime (s : GState) (t : Nat) (k : Kind) :
    ({ s with time := t } : GState).procs k = s.procs k := by
  cases k <;> rfl

@[simp] theorem enqHist_withTime (s : GState) (t : Nat) (k : Kind) :
    ({ s with time := t } : GState).enqHist k = s.enqHist k := by
  cases k <;> rfl

@[simp] theorem execHist_withTime (s : GState) (t : Nat) (k : Kind) :
    ({ s with time := t } : GState).execHist k = s.execHist k := by
  cases k <;> rfl

@[simp] theorem statusOf_withTime (s : GState) (t : Nat) (e : String) :
    statusOf ({ s with time := t } : GState) e = statusOf s e := rfl

@[simp] theorem threads_withTime (s : GState) (t : Nat) :
    ({ s with time := t } : GState).threads = s.threads := rfl

@[simp] theorem queueOf_withTime (s : GState) (t : Nat) (k : Kind) (e : String) :
    queueOf ({ s with time := t } : GState) k e = queueOf s k e := by
  simp [queueOf]

@[simp] theorem queueOf_modifyStatus (s : GState) (e2 : String)
    (f : UserStatus → UserStatus) (k : Kind) (e : String) :
    queueOf (modifyStatus s e2 f) k e = queueOf s k e := by
  simp [queueOf]

@[simp] theorem queueOf_setEnqHist (s : GState) (k2 : Kind) (l : List Operation)
    (k : Kind) (e : String) : queueOf (s.setEnqHist k2 l) k e = queueOf s k e := by
  simp [queueOf]

@[simp] theorem queueOf_setExecHist (s : GState) (k2 : Kind) (l : List Operation)
    (k : Kind) (e : String) : queueOf (s.setExecHist k2 l) k e = queueOf s k e := by
  simp [queueOf]

@[simp] theorem queueOf_setProcs (s : GState) (k2 : Kind) (p : List String)
    (k : Kind) (e : String) : queueOf (s.setProcs k2 p) k e = queueOf s k e := by
  simp [queueOf]

theorem queueOf_setQueues_dmodify_self (s : GState) (k : Kind) (e : String)
    (f : List Operation → List Operation) :
    queueOf (s.setQueues k (dmodify (s.queues k) e f [])) k e = f (queueOf s k e) := by
  simpa [queueOf] using dget_dmodify_self [] (s.queues k) e f

theorem queueOf_setQueues_dmodify_ne (s : GState) (k k2 : Kind) (e e2 : String)
    (f : List Operation → List Operation) (h : k2 ≠ k ∨ e2 ≠ e) :
    queueOf (s.setQueues k (dmodify (s.queues k) e f [])) k2 e2 = queueOf s k2 e2 := by
  rcases h with h | h
  · simp [queueOf, queues_setQueues_ne s k k2 _ h]
  · by_cases hk : k2 = k
    · subst hk
      simpa [queueOf] using dget_dmodify_ne [] [] (s.queues k2) e e2 f h
    · simp [queueOf, queues_setQueues_ne s k k2 _ hk]

@[simp] theorem statusOf_setQueues (s : GState) (k : Kind)
    (q : List (String × List Operation)) (e : String) :
    statusOf (s.setQueues k q) e = statusOf s e := by
  simp [statusOf]

@[simp] theorem statusOf_setProcs (s : GState) (k : Kind) (p : List String)
    (e : String) : statusOf (s.setProcs k p) e = statusOf s e := by
  simp [statusOf]

@[simp] theorem statusOf_setEnqHist (s : GState) (k : Kind) (l : List Operation)
    (e : String) : statusOf (s.setEnqHist k l) e = statusOf s e := by
  simp [statusOf]

@[simp] theorem statusOf_setExecHist (s : GState) (k : Kind) (l : List Operation)
    (e : String) : statusOf (s.setExecHist k l) e = statusOf s e := by
  simp [statusOf]

/- Field-interaction laws for the status record updaters. -/

@[simp] theorem activeK_setActiveK_self (u : UserStatus) (k : Kind) (b : Bool) :
    (u.setActiveK k b).activeK k = b := by
  cases k <;> rfl

theorem activeK_setActiveK_ne (u : UserStatus) (k k2 : Kind) (b : Bool) (h : k2 ≠ k) :
    (u.setActiveK k b).activeK k2 = u.activeK k2 := by
  cases k <;> cases k2 <;> first | rfl | exact absurd rfl h

@[simp] theorem activeK_incTotalQueuedK (u : UserStatus) (k k2 : Kind) :
    (u.incTotalQueuedK k).activeK k2 = u.activeK k2 := by
  cases k <;> cases k2 <;> rfl

@[simp] theorem activeK_incCompletedK (u : UserStatus) (k k2 : Kind) :
    (u.incCompletedK k).activeK k2 = u.activeK k2 := by
  cases k <;> cases k2 <;> rfl

@[simp] theorem activeK_setCurrentOpK (u : UserStatus) (k k2 : Kind) (v : Option String) :
    (u.setCurrentOpK k v).activeK k2 = u.activeK k2 := by
  cases k <;> cases k2 <;> rfl

@[simp] theorem activeK_setLastActivity (u : UserStatus) (t : Option Nat) (k : Kind) :
    (u.setLastActivity t).activeK k = u.activeK k := by
  cases k <;> rfl

@[simp] theorem totalQueuedK_incTotalQueuedK_self (u : UserStatus) (k : Kind) :
    (u.incTotalQueuedK k).totalQueuedK k = u.totalQueuedK k + 1 := by
  cases k <;> rfl

theorem totalQueuedK_incTotalQueuedK_ne (u : UserStatus) (k k2 : Kind) (h : k2 ≠ k) :
    (u.incTotalQueuedK k).totalQueuedK k2 = u.totalQueuedK k2 := by
  cases k <;> cases k2 <;> first | rfl | exact absurd rfl h

@[simp] theorem totalQueuedK_setActiveK (u : UserStatus) (k k2 : Kind) (b : Bool) :
    (u.setActiveK k b).totalQueuedK k2 = u.totalQueuedK k2 := by
  cases k <;> cases k2 <;> rfl

@[simp] theorem totalQueuedK_incCompletedK (u : UserStatus) (k k2 : Kind) :
    (u.incCompletedK k).totalQueuedK k2 = u.totalQueuedK k2 := by
  cases k <;> cases k2 <;> rfl

@[simp] theorem totalQueuedK_setCurrentOpK (u : UserStatus) (k k2 : Kind)
    (v : Option String) : (u.setCurrentOpK k v).totalQueuedK k2 = u.totalQueuedK k2 := by
  cases k <;> cases k2 <;> rfl

@[simp] theorem totalQueuedK_setLastActivity (u : UserStatus) (t : Option Nat) (k : Kind) :
    (u.setLastActivity t).totalQueuedK k = u.totalQueuedK k := by
  cases k <;> rfl

@[simp] theorem completedK_incCompletedK_self (u : UserStatus) (k : Kind) :
    (u.incCompletedK k).completedK k = u.completedK k + 1 := by
  cases k <;> rfl

theorem completedK_incCompletedK_ne (u : UserStatus) (k k2 : Kind) (h : k2 ≠ k) :
    (u.incCompletedK k).completedK k2 = u.completedK k2 := by
  cases k <;> cases k2 <;> first | rfl | exact absurd rfl h

@[simp] theorem completedK_setActiveK (u : UserStatus) (k k2 : Kind) (b : Bool) :
    (u.setActiveK k b).completedK k2 = u.completedK k2 := by
  cases k <;> cases k2 <;> rfl

@[simp] theorem completedK_incTotalQueuedK (u : UserStatus) (k k2 : Kind) :
    (u.incTotalQueuedK k).completedK k2 = u.completedK k2 := by
  cases k <;> cases k2 <;> rfl

@[simp] theorem completedK_setCurrentOpK (u : UserStatus) (k k2 : Kind)
    (v : Option String) : (u.setCurrentOpK k v).completedK k2 = u.completedK k2 := by
  cases k <;> cases k2 <;> rfl

@[simp] theorem completedK_setLastActivity (u : UserStatus) (t : Option Nat) (k : Kind) :
    (u.setLastActivity t).completedK k = u.completedK k := by
  cases k <;> rfl

/- materialisation changes no observable value. -/

@[simp] theorem statusOf_materializeFn (s : GState) (e e2 : String) :
    statusOf (materializeFn s e) e2 = statusOf s e2 := by
  simp [statusOf, materializeFn, dget_dmat]

@[simp] theorem queueOf_materializeFn (s : GState) (e : String) (k : Kind)
    (e2 : String) : queueOf (materializeFn s e) k e2 = queueOf s k e2 := by
  cases k <;> simp [queueOf, materializeFn, GState.queues, dget_dmat]

@[simp] theorem threads_materializeFn (s : GState) (e : String) :
    (materializeFn s e).threads = s.threads := rfl

@[simp] theorem procs_materializeFn (s : GState) (e : String) (k : Kind) :
    (materializeFn s e).procs k = s.procs k := by
  cases k <;> rfl

@[simp] theorem enqHist_materializeFn (s : GState) (e : String) (k : Kind) :
    (materializeFn s e).enqHist k = s.enqHist k := by
  cases k <;> rfl

@[simp] theorem execHist_materializeFn (s : GState) (e : String) (k : Kind) :
    (materializeFn s e).execHist k = s.execHist k := by
  cases k <;> rfl

@[simp] theorem snapshotOf_materializeFn (s : GState) (e e2 : String) :
    snapshotOf (materializeFn s e) e2 = snapshotOf s e2 := by
  simp [snapshotOf, materializeFn, dget_dmat, statusOf]

theorem statusOf_foldl_materializeFn (es : List String) (s : GState) (e2 : String) :
    statusOf (es.foldl materializeFn s) e2 = statusOf s e2 := by
  induction es generalizing s with
  | nil => rfl
  | cons e rest ih => simp [List.foldl_cons, ih]

theorem queueOf_foldl_materializeFn (es : List String) (s : GState) (k : Kind)
    (e2 : String) : queueOf (es.foldl materializeFn s) k e2 = queueOf s k e2 := by
  induction es generalizing s with
  | nil => rfl
  | cons e rest ih => simp [List.foldl_cons, ih]

theorem threads_foldl_materializeFn (es : List String) (s : GState) :
    (es.foldl materializeFn s).threads = s.threads := by
  induction es generalizing s with
  | nil => rfl
  | cons e rest ih => simp [List.foldl_cons, ih]

theorem procs_foldl_materializeFn (es : List String) (s : GState) (k : Kind) :
    (es.foldl materializeFn s).procs k = s.procs k := by
  induction es generalizing s with
  | nil => rfl
  | cons e rest ih => simp [List.foldl_cons, ih]

theorem enqHist_foldl_materializeFn (es : List String) (s : GState) (k : Kind) :
    (es.foldl materializeFn s).enqHist k = s.enqHist k := by
  induction es generalizing s with
  | nil => rfl
  | cons e rest ih => simp [List.foldl_cons, ih]

theorem execHist_foldl_materializeFn (es : List String) (s : GState) (k : Kind) :
    (es.foldl materializeFn s).execHist k = s.execHist k := by
  induction es generalizing s with
  | nil => rfl
  | cons e rest ih => simp [List.foldl_cons, ih]

/- Characterisation of the locked enqueue section. -/

theorem enqueueCore_queueOf_self (s : GState) (e : String) (p : OpPayload) :
    queueOf (enqueueCoreFn s e p) p.kind e =
      queueOf s p.kind e ++ [⟨e, p, s.time⟩] := by
  simp [enqueueCoreFn, queueOf, dget_dmodify_self]

theorem enqueueCore_queueOf_ne (s : GState) (e : String) (p : OpPayload)
    (k2 : Kind) (e2 : String) (h : k2 ≠ p.kind ∨ e2 ≠ e) :
    queueOf (enqueueCoreFn s e p) k2 e2 = queueOf s k2 e2 := by
  rcases h with h | h
  · simp [enqueueCoreFn, queueOf, queues_setQueues_ne _ _ _ _ h]
  · by_cases hk : k2 = p.kind
    · subst hk
      simp [enqueueCoreFn, queueOf, dget_dmodify_ne _ _ _ _ _ _ h]
    · simp [enqueueCoreFn, queueOf, queues_setQueues_ne _ _ _ _ hk]

theorem enqueueCore_enqHist_self (s : GState) (e : String) (p : OpPayload) :
    (enqueueCoreFn s e p).enqHist p.kind = s.enqHist p.kind ++ [⟨e, p, s.time⟩] := by
  simp [enqueueCoreFn]

theorem enqueueCore_enqHist_ne (s : GState) (e : String) (p : OpPayload)
    (k2 : Kind) (h : k2 ≠ p.kind) :
    (enqueueCoreFn s e p).enqHist k2 = s.enqHist k2 := by
  simp only [enqueueCoreFn]
  rw [enqHist_setEnqHist_ne _ _ _ _ h]
  simp

theorem enqueueCore_execHist (s : GState) (e : String) (p : OpPayload) (k2 : Kind) :
    (enqueueCoreFn s e p).execHist k2 = s.execHist k2 := by
  simp [enqueueCoreFn]

theorem enqueueCore_threads (s : GState) (e : String) (p : OpPayload) :
    (enqueueCoreFn s e p).threads = s.threads := by
  simp [enqueueCoreFn]

theorem enqueueCore_procs (s : GState) (e : String) (p : OpPayload) (k2 : Kind) :
    (enqueueCoreFn s e p).procs k2 = s.procs k2 := by
  simp [enqueueCoreFn]

theorem enqueueCore_statusOf_self (s : GState) (e : String) (p : OpPayload) :
    statusOf (enqueueCoreFn s e p) e = (statusOf s e).incTotalQueuedK p.kind := by
  simp [enqueueCoreFn]

theorem enqueueCore_statusOf_ne (s : GState) (e : String) (p : OpPayload)
    (e2 : String) (h : e2 ≠ e) :
    statusOf (enqueueCoreFn s e p) e2 = statusOf s e2 := by
  simp [enqueueCoreFn, statusOf_modifyStatus_ne _ _ _ _ h]

/- ----------------------------------------------------------------------
Master invariant of the manager, proved to hold in every reachable state.
---------------------------------------------------------------------- -/

/-- Invariant bundle:
uniq    - at most one worker per email and kind;
tip     - every worker has its processor-dict entry;
qown    - queued operations carry the email of their queue;
hown    - held operations carry the email of their worker;
cnt     - the queued counter equals the length of the submission history of
          that email and kind;
fifo    - the submission history of an email and kind is exactly the
          invocation history followed by the held operations followed by the
          pending queue;
cbound  - completed count plus workers past executor start is bounded by the
          invocation history length. -/

theorem inv_init : MInv initState := by
  refine ⟨?_, ?_, ?_, ?_, ?_, ?_, ?_⟩
  · intro e k
    simp [initState, countThreads]
  · intro th hmem
    simp [initState] at hmem
  · intro e k op hmem
    cases k <;> simp [initState, queueOf, GState.queues, dget] at hmem
  · intro th hmem
    simp [initState] at hmem
  · intro e k
    cases k <;>
      simp [initState, statusOf, dget, defaultStatus, GState.enqHist, emailOps,
        UserStatus.totalQueuedK]
  · intro e k
    cases k <;>
      simp [initState, GState.enqHist, GState.execHist, emailOps, queueOf,
        GState.queues, dget]
  · intro e k
    cases k <;>
      simp [initState, statusOf, dget, defaultStatus, GState.execHist, emailOps,
        UserStatus.completedK, execPhaseCount]

theorem exists_mem_of_countThreads_pos (e : String) (k : Kind) (ts : List Thread)
    (h : 0 < countThreads e k ts) : ∃ th ∈ ts, th.email = e ∧ th.tkind = k := by
  induction ts with
  | nil => simp [countThreads] at h
  | cons th rest ih =>
    by_cases hm : th.email = e ∧ th.tkind = k
    · exact ⟨th, List.mem_cons_self th rest, hm⟩
    · simp only [countThreads, pcCount_cons, if_neg hm, Nat.zero_add] at h
      obtain ⟨th2, hmem, hth2⟩ := ih h
      exact ⟨th2, List.mem_cons_of_mem th hmem, hth2⟩

theorem countThreads_zero_of_not_in_procs (s : GState) (e : String) (k : Kind)
    (hInv : MInv s) (hnot : e ∉ s.procs k) : countThreads e k s.threads = 0 := by
  by_contra h
  obtain ⟨th, hmem, he, hk⟩ :=
    exists_mem_of_countThreads_pos e k s.threads (Nat.pos_of_ne_zero h)
  exact hnot (he ▸ hk ▸ hInv.tip th hmem)

theorem countThreads_mid (e : String) (k : Kind) (pre post : List Thread)
    (th : Thread) (he : th.email = e) (hk : th.tkind = k) :
    countThreads e k (pre ++ th :: post) =
      countThreads e k pre + 1 + countThreads e k post := by
  simp [countThreads, he, hk]
  ring

theorem side_counts_zero (e : String) (k : Kind) (pre post : List Thread)
    (th : Thread) (he : th.email = e) (hk : th.tkind = k)
    (h : countThreads e k (pre ++ th :: post) ≤ 1) :
    countThreads e k pre = 0 ∧ countThreads e k post = 0 := by
  rw [countThreads_mid e k pre post th he hk] at h
  omega

theorem heldList_side_nil (e : String) (k : Kind) (pre post : List Thread)
    (th : Thread) (he : th.email = e) (hk : th.tkind = k)
    (h : countThreads e k (pre ++ th :: post) ≤ 1) :
    heldList e k pre = [] ∧ heldList e k post = [] := by
  obtain ⟨h1, h2⟩ := side_counts_zero e k pre post th he hk h
  exact ⟨heldList_eq_nil_of_count_zero e k pre h1,
    heldList_eq_nil_of_count_zero e k post h2⟩

theorem inv_materializeFn (s : GState) (e : String) (h : MInv s) :
    MInv (materializeFn s e) := by
  obtain ⟨uniq, tip, qown, hown, cnt, fifo, cbound⟩ := h
  refine ⟨?_, ?_, ?_, ?_, ?_, ?_, ?_⟩
  · intro e2 k
    rw [threads_materializeFn]
    exact uniq e2 k
  · intro th hmem
    rw [threads_materializeFn] at hmem
    rw [procs_materializeFn]
    exact tip th hmem
  · intro e2 k op hop
    rw [queueOf_materializeFn] at hop
    exact qown e2 k op hop
  · intro th hmem
    rw [threads_materializeFn] at hmem
    exact hown th hmem
  · intro e2 k
    rw [statusOf_materializeFn, enqHist_materializeFn]
    exact cnt e2 k
  · intro e2 k
    rw [enqHist_materializeFn, execHist_materializeFn, threads_materializeFn,
      queueOf_materializeFn]
    exact fifo e2 k
  · intro e2 k
    rw [statusOf_materializeFn, execHist_materializeFn, threads_materializeFn]
    exact cbound e2 k

theorem inv_foldl_materializeFn (es : List String) (s : GState) (h : MInv s) :
    MInv (es.foldl materializeFn s) := by
  induction es generalizing s with
  | nil => exact h
  | cons e rest ih => exact ih (materializeFn s e) (inv_materializeFn s e h)

theorem inv_startProcessorFn (s : GState) (e : String) (k : Kind) (h : MInv s) :
    MInv (startProcessorFn s e k) := by
  by_cases hmem : e ∈ s.procs k
  · simpa [startProcessorFn, hmem] using h
  · have hcount : countThreads e k s.threads = 0 :=
      countThreads_zero_of_not_in_procs s e k h hmem
    obtain ⟨uniq, tip, qown, hown, cnt, fifo, cbound⟩ := h
    simp only [startProcessorFn, if_neg hmem]
    refine ⟨?_, ?_, ?_, ?_, ?_, ?_, ?_⟩
    · intro e2 k2
      simp only [threads_modifyStatus, threads_setProcs, countThreads,
        pcCount_append, pcCount_cons, pcCount_nil]
      by_cases hm : e = e2 ∧ k = k2
      · obtain ⟨he, hk⟩ := hm
        subst he; subst hk
        simp only [countThreads] at hcount uniq
        simp [hcount]
      · have : ¬((⟨e, k, Pc.ready⟩ : Thread).email = e2 ∧
            (⟨e, k, Pc.ready⟩ : Thread).tkind = k2) := hm
        simp only [this, if_neg, not_false_eq_true, Nat.add_zero, Nat.zero_add]
        simpa [countThreads] using uniq e2 k2
    · intro th hmem2
      simp only [threads_modifyStatus, threads_setProcs] at hmem2
      simp only [procs_withThreads, procs_modifyStatus]
      rcases List.mem_append.mp hmem2 with hold | hnew
      · have htip := tip th hold
        by_cases htk : th.tkind = k
        · rw [htk, procs_setProcs_self]
          exact List.mem_append_left _ (htk ▸ htip)
        · rw [procs_setProcs_ne _ _ _ _ htk]
          exact htip
      · have : th = ⟨e, k, Pc.ready⟩ := by simpa using hnew
        subst this
        simp only [procs_setProcs_self]
        exact List.mem_append_right _ (List.mem_singleton.mpr rfl)
    · intro e2 k2 op hop
      simp only [queueOf_withThreads, queueOf_modifyStatus, queueOf_setProcs] at hop
      exact qown e2 k2 op hop
    · intro th hmem2
      simp only [threads_modifyStatus, threads_setProcs] at hmem2
      rcases List.mem_append.mp hmem2 with hold | hnew
      · exact hown th hold
      · have : th = ⟨e, k, Pc.ready⟩ := by simpa using hnew
        subst this
        intro op hop
        simp [heldOf] at hop
    · intro e2 k2
      simp only [statusOf_withThreads, enqHist_withThreads, enqHist_modifyStatus,
        enqHist_setProcs]
      by_cases he2 : e2 = e
      · subst he2
        rw [statusOf_modifyStatus_self]
        simpa using cnt e2 k2
      · rw [statusOf_modifyStatus_ne _ _ _ _ he2]
        simpa using cnt e2 k2
    · intro e2 k2
      simp only [enqHist_withThreads, enqHist_modifyStatus, enqHist_setProcs,
        execHist_withThreads, execHist_modifyStatus, execHist_setProcs,
        queueOf_withThreads, queueOf_modifyStatus, queueOf_setProcs,
        threads_modifyStatus, threads_setProcs, heldList_append, heldList_cons,
        heldList_nil]
      have : (if (⟨e, k, Pc.ready⟩ : Thread).email = e2 ∧
          (⟨e, k, Pc.ready⟩ : Thread).tkind = k2 then heldOf Pc.ready else []) = [] := by
        simp [heldOf]
      rw [this]
      simpa using fifo e2 k2
    · intro e2 k2
      simp only [statusOf_withThreads, execHist_withThreads, execHist_modifyStatus,
        execHist_setProcs, threads_modifyStatus, threads_setProcs, execPhaseCount,
        pcCount_append, pcCount_cons, pcCount_nil]
      have hw : (if (⟨e, k, Pc.ready⟩ : Thread).email = e2 ∧
          (⟨e, k, Pc.ready⟩ : Thread).tkind = k2 then execWeight Pc.ready else 0) = 0 := by
        simp [execWeight]
      rw [hw]
      by_cases he2 : e2 = e
      · subst he2
        rw [statusOf_modifyStatus_self]
        simpa [execPhaseCount] using cbound e2 k2
      · rw [statusOf_modifyStatus_ne _ _ _ _ he2]
        simpa [execPhaseCount] using cbound e2 k2

theorem inv_enqueueCoreFn (s : GState) (e : String) (p : OpPayload) (h : MInv s) :
    MInv (enqueueCoreFn s e p) := by
  obtain ⟨uniq, tip, qown, hown, cnt, fifo, cbound⟩ := h
  refine ⟨?_, ?_, ?_, ?_, ?_, ?_, ?_⟩
  · intro e2 k2
    rw [enqueueCore_threads]
    exact uniq e2 k2
  · intro th hmem
    rw [enqueueCore_threads] at hmem
    rw [enqueueCore_procs]
    exact tip th hmem
  · intro e2 k2 op hop
    by_cases hm : k2 = p.kind ∧ e2 = e
    · obtain ⟨hk, he⟩ := hm
      subst hk; subst he
      rw [enqueueCore_queueOf_self] at hop
      rcases List.mem_append.mp hop with hold | hnew
      · exact qown e2 p.kind op hold
      · have : op = ⟨e2, p, s.time⟩ := by simpa using hnew
        subst this
        rfl
    · rw [enqueueCore_queueOf_ne s e p k2 e2 (by tauto)] at hop
      exact qown e2 k2 op hop
  · intro th hmem
    rw [enqueueCore_threads] at hmem
    exact hown th hmem
  · intro e2 k2
    by_cases hk : k2 = p.kind
    · subst hk
      rw [enqueueCore_enqHist_self]
      by_cases he2 : e2 = e
      · subst he2
        rw [enqueueCore_statusOf_self]
        simp only [totalQueuedK_incTotalQueuedK_self, emailOps_append]
        have : emailOps e2 [(⟨e2, p, s.time⟩ : Operation)] = [⟨e2, p, s.time⟩] := by
          simp [emailOps]
        rw [this, List.length_append, cnt e2 p.kind]
        rfl
      · rw [enqueueCore_statusOf_ne s e p e2 he2]
        have hne : e ≠ e2 := fun hh => he2 hh.symm
        have : emailOps e2 [(⟨e, p, s.time⟩ : Operation)] = [] := by
          simp [emailOps, hne]
        rw [emailOps_append, this, List.append_nil]
        exact cnt e2 p.kind
    · rw [enqueueCore_enqHist_ne s e p k2 hk]
      by_cases he2 : e2 = e
      · subst he2
        rw [enqueueCore_statusOf_self, totalQueuedK_incTotalQueuedK_ne _ _ _ hk]
        exact cnt e2 k2
      · rw [enqueueCore_statusOf_ne s e p e2 he2]
        exact cnt e2 k2
  · intro e2 k2
    rw [enqueueCore_execHist, enqueueCore_threads]
    by_cases hk : k2 = p.kind
    · subst hk
      rw [enqueueCore_enqHist_self, emailOps_append]
      by_cases he2 : e2 = e
      · subst he2
        rw [enqueueCore_queueOf_self]
        have : emailOps e2 [(⟨e2, p, s.time⟩ : Operation)] = [⟨e2, p, s.time⟩] := by
          simp [emailOps]
        rw [this, fifo e2 p.kind]
        simp
      · rw [enqueueCore_queueOf_ne s e p p.kind e2 (Or.inr he2)]
        have hne : e ≠ e2 := fun hh => he2 hh.symm
        have : emailOps e2 [(⟨e, p, s.time⟩ : Operation)] = [] := by
          simp [emailOps, hne]
        rw [this, List.append_nil]
        exact fifo e2 p.kind
    · rw [enqueueCore_enqHist_ne s e p k2 hk,
        enqueueCore_queueOf_ne s e p k2 e2 (Or.inl hk)]
      exact fifo e2 k2
  · intro e2 k2
    rw [enqueueCore_execHist, enqueueCore_threads]
    by_cases he2 : e2 = e
    · subst he2
      rw [enqueueCore_statusOf_self, completedK_incTotalQueuedK]
      exact cbound e2 k2
    · rw [enqueueCore_statusOf_ne s e p e2 he2]
      exact cbound e2 k2

theorem inv_enqueueFn (s : GState) (e : String) (p : OpPayload) (h : MInv s) :
    MInv (enqueueFn s e p) := by
  have hcore := inv_enqueueCoreFn s e p h
  by_cases hact : (statusOf (enqueueCoreFn s e p) e).activeK p.kind
  · simpa [enqueueFn, hact] using hcore
  · simpa [enqueueFn, hact] using
      inv_startProcessorFn (enqueueCoreFn s e p) e p.kind hcore

theorem pcCount_replace_le (w : Pc → Nat) (e : String) (k : Kind)
    (pre post : List Thread) (th1 th2 : Thread)
    (he : th2.email = th1.email) (hk : th2.tkind = th1.tkind)
    (hw : w th2.pc ≤ w th1.pc) :
    pcCount w e k (pre ++ th2 :: post) ≤ pcCount w e k (pre ++ th1 :: post) := by
  simp only [pcCount_append, pcCount_cons, he, hk]
  by_cases hc : th1.email = e ∧ th1.tkind = k
  · simp only [if_pos hc]
    omega
  · simp only [if_neg hc]
    omega

theorem pcCount_replace_eq (w : Pc → Nat) (e : String) (k : Kind)
    (pre post : List Thread) (th1 th2 : Thread)
    (he : th2.email = th1.email) (hk : th2.tkind = th1.tkind)
    (hw : w th2.pc = w th1.pc) :
    pcCount w e k (pre ++ th2 :: post) = pcCount w e k (pre ++ th1 :: post) := by
  simp only [pcCount_append, pcCount_cons, he, hk, hw]

theorem countThreads_replace_eq (e : String) (k : Kind)
    (pre post : List Thread) (th1 th2 : Thread)
    (he : th2.email = th1.email) (hk : th2.tkind = th1.tkind) :
    countThreads e k (pre ++ th2 :: post) = countThreads e k (pre ++ th1 :: post) :=
  pcCount_replace_eq _ e k pre post th1 th2 he hk rfl

theorem heldList_replace_eq (e : String) (k : Kind) (pre post : List Thread)
    (th1 th2 : Thread) (he : th2.email = th1.email) (hk : th2.tkind = th1.tkind)
    (hh : heldOf th2.pc = heldOf th1.pc) :
    heldList e k (pre ++ th2 :: post) = heldList e k (pre ++ th1 :: post) := by
  simp only [heldList_append, heldList_cons, he, hk, hh]

theorem countThreads_pos_of_mem (e : String) (k : Kind) (ts : List Thread)
    (th : Thread) (hmem : th ∈ ts) (he : th.email = e) (hk : th.tkind = k) :
    0 < countThreads e k ts := by
  induction ts with
  | nil => simp at hmem
  | cons hd rest ih =>
    rcases List.mem_cons.mp hmem with hh | hh
    · subst hh
      simp only [countThreads, pcCount_cons, he, hk, and_self, if_pos]
      omega
    · have := ih hh
      simp only [countThreads, pcCount_cons] at this ⊢
      omega

/-- Invariance under a step that replaces one worker pc without touching
queues, processor dicts, histories, held operations or counters. -/

theorem inv_replace_generic (s s2 : GState) (pre post : List Thread)
    (th1 th2 : Thread)
    (hth : s.threads = pre ++ th1 :: post)
    (he : th2.email = th1.email) (hk : th2.tkind = th1.tkind)
    (hheld : heldOf th2.pc = heldOf th1.pc)
    (hwt : execWeight th2.pc ≤ execWeight th1.pc)
    (hq : ∀ k e, queueOf s2 k e = queueOf s k e)
    (hp : ∀ k, s2.procs k = s.procs k)
    (henq : ∀ k, s2.enqHist k = s.enqHist k)
    (hexec : ∀ k, s2.execHist k = s.execHist k)
    (hthreads : s2.threads = pre ++ th2 :: post)
    (hstatus : ∀ e k, (statusOf s2 e).totalQueuedK k = (statusOf s e).totalQueuedK k ∧
        (statusOf s2 e).completedK k = (statusOf s e).completedK k)
    (h : MInv s) : MInv s2 := by
  obtain ⟨uniq, tip, qown, hown, cnt, fifo, cbound⟩ := h
  refine ⟨?_, ?_, ?_, ?_, ?_, ?_, ?_⟩
  · intro e2 k2
    rw [hthreads, countThreads_replace_eq e2 k2 pre post th1 th2 he hk, ← hth]
    exact uniq e2 k2
  · intro th hmem
    rw [hthreads] at hmem
    rw [hp]
    rcases List.mem_append.mp hmem with hh | hh
    · exact tip th (hth ▸ List.mem_append_left _ hh)
    · rcases List.mem_cons.mp hh with hh2 | hh2
      · subst hh2
        rw [he, hk]
        exact tip th1 (hth ▸ List.mem_append_right _ (List.mem_cons_self _ _))
      · exact tip th (hth ▸ List.mem_append_right _ (List.mem_cons_of_mem _ hh2))
  · intro e2 k2 op hop
    rw [hq] at hop
    exact qown e2 k2 op hop
  · intro th hmem
    rw [hthreads] at hmem
    rcases List.mem_append.mp hmem with hh | hh
    · exact hown th (hth ▸ List.mem_append_left _ hh)
    · rcases List.mem_cons.mp hh with hh2 | hh2
      · subst hh2
        intro op hop
        rw [hheld] at hop
        rw [he]
        exact hown th1 (hth ▸ List.mem_append_right _ (List.mem_cons_self _ _)) op hop
      · exact hown th (hth ▸ List.mem_append_right _ (List.mem_cons_of_mem _ hh2))
  · intro e2 k2
    rw [(hstatus e2 k2).1, henq]
    exact cnt e2 k2
  · intro e2 k2
    rw [henq, hexec, hq, hthreads,
      heldList_replace_eq e2 k2 pre post th1 th2 he hk hheld, ← hth]
    exact fifo e2 k2
  · intro e2 k2
    rw [(hstatus e2 k2).2, hexec]
    calc (statusOf s e2).completedK k2 + execPhaseCount e2 k2 s2.threads
        ≤ (statusOf s e2).completedK k2 + execPhaseCount e2 k2 s.threads := by
          rw [hthreads, hth]
          exact Nat.add_le_add_left
            (pcCount_replace_le execWeight e2 k2 pre post th1 th2 he hk hwt) _
      _ ≤ (emailOps e2 (s.execHist k2)).length := cbound e2 k2

theorem inv_setCurrentFn (s : GState) (pre post : List Thread) (e : String)
    (k : Kind) (op : Operation)
    (hth : s.threads = pre ++ ⟨e, k, .statusUpdate op⟩ :: post)
    (h : MInv s) : MInv (setCurrentFn s pre post e k op) := by
  refine inv_replace_generic s _ pre post ⟨e, k, .statusUpdate op⟩
    ⟨e, k, .invoking op⟩ hth rfl rfl rfl (Nat.le_refl _)
    ?_ ?_ ?_ ?_ ?_ ?_ h
  · intro k2 e2
    cases k2 <;> rfl
  · intro k2
    cases k2 <;> rfl
  · intro k2
    cases k2 <;> rfl
  · intro k2
    cases k2 <;> rfl
  · rfl
  · intro e2 k2
    have hconv : statusOf (setCurrentFn s pre post e k op) e2 =
        statusOf (modifyStatus s e fun u =>
          (u.setCurrentOpK k (some (kindLabel k))).setLastActivity (some s.time)) e2 := rfl
    rw [hconv]
    by_cases he2 : e2 = e
    · subst he2
      rw [statusOf_modifyStatus_self]
      simp
    · rw [statusOf_modifyStatus_ne _ _ _ _ he2]
      simp

theorem inv_popEmptyFn (s : GState) (pre post : List Thread) (e : String)
    (k : Kind) (hth : s.threads = pre ++ ⟨e, k, .ready⟩ :: post)
    (h : MInv s) : MInv (popEmptyFn s pre post e k) := by
  refine inv_replace_generic s _ pre post ⟨e, k, .ready⟩
    ⟨e, k, .finished⟩ hth rfl rfl rfl (Nat.le_refl _)
    ?_ ?_ ?_ ?_ ?_ ?_ h
  · intro k2 e2
    cases k <;> cases k2 <;>
      simp [popEmptyFn, queueOf, GState.setQueues, GState.queues, modifyStatus,
        dget_dmat]
  · intro k2
    cases k <;> cases k2 <;> rfl
  · intro k2
    cases k <;> cases k2 <;> rfl
  · intro k2
    cases k <;> cases k2 <;> rfl
  · rfl
  · intro e2 k2
    have hconv : statusOf (popEmptyFn s pre post e k) e2 =
        statusOf (modifyStatus (s.setQueues k (dmat [] (s.queues k) e)) e
          fun u => u.setActiveK k false) e2 := rfl
    rw [hconv]
    by_cases he2 : e2 = e
    · subst he2
      rw [statusOf_modifyStatus_self]
      simp
    · rw [statusOf_modifyStatus_ne _ _ _ _ he2]
      simp

theorem inv_clearCurrentFn (s : GState) (pre post : List Thread) (e : String)
    (k : Kind) (hth : s.threads = pre ++ ⟨e, k, .clearing⟩ :: post)
    (h : MInv s) : MInv (clearCurrentFn s pre post e k) := by
  refine inv_replace_generic s _ pre post ⟨e, k, .clearing⟩
    ⟨e, k, .ready⟩ hth rfl rfl rfl (Nat.le_refl _)
    ?_ ?_ ?_ ?_ ?_ ?_ h
  · intro k2 e2
    cases k2 <;> rfl
  · intro k2
    cases k2 <;> rfl
  · intro k2
    cases k2 <;> rfl
  · intro k2
    cases k2 <;> rfl
  · rfl
  · intro e2 k2
    have hconv : statusOf (clearCurrentFn s pre post e k) e2 =
        statusOf (modifyStatus s e fun u => u.setCurrentOpK k none) e2 := rfl
    rw [hconv]
    by_cases he2 : e2 = e
    · subst he2
      rw [statusOf_modifyStatus_self]
      simp
    · rw [statusOf_modifyStatus_ne _ _ _ _ he2]
      simp

theorem inv_execEndFn (s : GState) (pre post : List Thread) (e : String)
    (k : Kind) (op : Operation) (res : Option ExecResult)
    (hth : s.threads = pre ++ ⟨e, k, .inFlight op⟩ :: post)
    (h : MInv s) : MInv (execEndFn s pre post e k op res) := by
  cases res with
  | some r =>
    refine inv_replace_generic s _ pre post ⟨e, k, .inFlight op⟩
      ⟨e, k, .counting op⟩ hth rfl rfl rfl (Nat.le_refl _)
      ?_ ?_ ?_ ?_ ?_ ?_ h
    · intro k2 e2
      cases k2 <;> rfl
    · intro k2
      cases k2 <;> rfl
    · intro k2
      cases k2 <;> rfl
    · intro k2
      cases k2 <;> rfl
    · rfl
    · intro e2 k2
      exact ⟨rfl, rfl⟩
  | none =>
    refine inv_replace_generic s _ pre post ⟨e, k, .inFlight op⟩
      ⟨e, k, .clearing⟩ hth rfl rfl rfl (by simp [execWeight])
      ?_ ?_ ?_ ?_ ?_ ?_ h
    · intro k2 e2
      cases k2 <;> rfl
    · intro k2
      cases k2 <;> rfl
    · intro k2
      cases k2 <;> rfl
    · intro k2
      cases k2 <;> rfl
    · rfl
    · intro e2 k2
      exact ⟨rfl, rfl⟩

theorem heldList_replace_notmatch (e2 : String) (k2 : Kind) (pre post : List Thread)
    (th1 th2 : Thread) (h1 : ¬(th1.email = e2 ∧ th1.tkind = k2))
    (h2 : ¬(th2.email = e2 ∧ th2.tkind = k2)) :
    heldList e2 k2 (pre ++ th2 :: post) = heldList e2 k2 (pre ++ th1 :: post) := by
  simp only [heldList_append, heldList_cons, if_neg h1, if_neg h2]

theorem inv_popSomeFn (s : GState) (pre post : List Thread) (e : String) (k : Kind)
    (op : Operation) (rest : List Operation)
    (hth : s.threads = pre ++ ⟨e, k, .ready⟩ :: post)
    (hq : queueOf s k e = op :: rest)
    (h : MInv s) : MInv (popSomeFn s pre post e k op rest) := by
  obtain ⟨uniq, tip, qown, hown, cnt, fifo, cbound⟩ := h
  have hopem : op.email = e := qown e k op (by rw [hq]; exact List.mem_cons_self _ _)
  have hthreads2 : (popSomeFn s pre post e k op rest).threads =
      pre ++ ⟨e, k, .statusUpdate op⟩ :: post := by
    cases k <;> rfl
  have hqself : queueOf (popSomeFn s pre post e k op rest) k e = rest := by
    cases k <;>
      simp [popSomeFn, queueOf, GState.setQueues, GState.queues, dget_dmodify_self]
  have hqne : ∀ k2 e2, k2 ≠ k ∨ e2 ≠ e →
      queueOf (popSomeFn s pre post e k op rest) k2 e2 = queueOf s k2 e2 := by
    intro k2 e2 hne
    rcases hne with hne | hne
    · cases k <;> cases k2 <;>
        first
        | exact absurd rfl hne
        | simp [popSomeFn, queueOf, GState.setQueues, GState.queues]
    · cases k <;> cases k2 <;>
        simp [popSomeFn, queueOf, GState.setQueues, GState.queues,
          dget_dmodify_ne _ _ _ _ _ _ hne]
  have hst : ∀ e2, statusOf (popSomeFn s pre post e k op rest) e2 = statusOf s e2 := by
    intro e2
    cases k <;> rfl
  have henq2 : ∀ k2, (popSomeFn s pre post e k op rest).enqHist k2 = s.enqHist k2 := by
    intro k2
    cases k <;> cases k2 <;> rfl
  have hexec2 : ∀ k2, (popSomeFn s pre post e k op rest).execHist k2 = s.execHist k2 := by
    intro k2
    cases k <;> cases k2 <;> rfl
  have hprocs2 : ∀ k2, (popSomeFn s pre post e k op rest).procs k2 = s.procs k2 := by
    intro k2
    cases k <;> cases k2 <;> rfl
  refine ⟨?_, ?_, ?_, ?_, ?_, ?_, ?_⟩
  · intro e2 k2
    rw [hthreads2, countThreads_replace_eq e2 k2 pre post ⟨e, k, .ready⟩
      ⟨e, k, .statusUpdate op⟩ rfl rfl, ← hth]
    exact uniq e2 k2
  · intro th hmem
    rw [hthreads2] at hmem
    rw [hprocs2]
    rcases List.mem_append.mp hmem with hh | hh
    · exact tip th (hth ▸ List.mem_append_left _ hh)
    · rcases List.mem_cons.mp hh with hh2 | hh2
      · subst hh2
        exact tip ⟨e, k, .ready⟩
          (hth ▸ List.mem_append_right _ (List.mem_cons_self _ _))
      · exact tip th (hth ▸ List.mem_append_right _ (List.mem_cons_of_mem _ hh2))
  · intro e2 k2 op2 hop2
    by_cases hm : k2 = k ∧ e2 = e
    · obtain ⟨hk2, he2⟩ := hm
      subst hk2; subst he2
      rw [hqself] at hop2
      exact qown e2 k2 op2 (by rw [hq]; exact List.mem_cons_of_mem _ hop2)
    · rw [hqne k2 e2 (by tauto)] at hop2
      exact qown e2 k2 op2 hop2
  · intro th hmem
    rw [hthreads2] at hmem
    rcases List.mem_append.mp hmem with hh | hh
    · exact hown th (hth ▸ List.mem_append_left _ hh)
    · rcases List.mem_cons.mp hh with hh2 | hh2
      · subst hh2
        intro op2 hop2
        have : op2 = op := by simpa [heldOf] using hop2
        subst this
        exact hopem
      · exact hown th (hth ▸ List.mem_append_right _ (List.mem_cons_of_mem _ hh2))
  · intro e2 k2
    rw [hst, henq2]
    exact cnt e2 k2
  · intro e2 k2
    rw [henq2, hexec2, hthreads2]
    by_cases hm : e2 = e ∧ k2 = k
    · obtain ⟨he2, hk2⟩ := hm
      subst he2; subst hk2
      have huniq := uniq e2 k2
      rw [hth] at huniq
      obtain ⟨hp1, hp2⟩ := heldList_side_nil e2 k2 pre post _ rfl rfl huniq
      have hfifo := fifo e2 k2
      rw [hth] at hfifo
      rw [hqself]
      simp only [heldList_append, heldList_cons, hp1, hp2] at hfifo ⊢
      simp only [heldOf, and_self, if_true, reduceIte] at hfifo ⊢
      rw [hq] at hfifo
      simpa using hfifo
    · have hnm1 : ¬((⟨e, k, Pc.ready⟩ : Thread).email = e2 ∧
          (⟨e, k, Pc.ready⟩ : Thread).tkind = k2) := by
        simp only [Thread.email, Thread.tkind] at hm ⊢
        tauto
      have hnm2 : ¬((⟨e, k, Pc.statusUpdate op⟩ : Thread).email = e2 ∧
          (⟨e, k, Pc.statusUpdate op⟩ : Thread).tkind = k2) := by
        simp only [Thread.email, Thread.tkind] at hm ⊢
        tauto
      rw [heldList_replace_notmatch e2 k2 pre post _ _ hnm1 hnm2,
        hqne k2 e2 (by tauto), ← hth]
      exact fifo e2 k2
  · intro e2 k2
    rw [hst, hexec2, hthreads2]
    rw [show execPhaseCount e2 k2 (pre ++ ⟨e, k, Pc.statusUpdate op⟩ :: post) =
        execPhaseCount e2 k2 (pre ++ ⟨e, k, Pc.ready⟩ :: post) from
      pcCount_replace_eq execWeight e2 k2 pre post _ _ rfl rfl rfl, ← hth]
    exact cbound e2 k2

theorem inv_execBeginFn (s : GState) (pre post : List Thread) (e : String) (k : Kind)
    (op : Operation)
    (hth : s.threads = pre ++ ⟨e, k, .invoking op⟩ :: post)
    (h : MInv s) : MInv (execBeginFn s pre post e k op) := by
  obtain ⟨uniq, tip, qown, hown, cnt, fifo, cbound⟩ := h
  have hopem : op.email = e := by
    have := hown ⟨e, k, .invoking op⟩
      (hth ▸ List.mem_append_right _ (List.mem_cons_self _ _)) op
    simpa [heldOf] using this
  have hthreads2 : (execBeginFn s pre post e k op).threads =
      pre ++ ⟨e, k, .inFlight op⟩ :: post := by
    cases k <;> rfl
  have hqall : ∀ k2 e2, queueOf (execBeginFn s pre post e k op) k2 e2 = queueOf s k2 e2 := by
    intro k2 e2
    cases k <;> cases k2 <;> rfl
  have hst : ∀ e2, statusOf (execBeginFn s pre post e k op) e2 = statusOf s e2 := by
    intro e2
    cases k <;> rfl
  have henq2 : ∀ k2, (execBeginFn s pre post e k op).enqHist k2 = s.enqHist k2 := by
    intro k2
    cases k <;> cases k2 <;> rfl
  have hexecself : (execBeginFn s pre post e k op).execHist k = s.execHist k ++ [op] := by
    cases k <;> rfl
  have hexecne : ∀ k2, k2 ≠ k → (execBeginFn s pre post e k op).execHist k2 = s.execHist k2 := by
    intro k2 hne
    cases k <;> cases k2 <;> first | exact absurd rfl hne | rfl
  have hprocs2 : ∀ k2, (execBeginFn s pre post e k op).procs k2 = s.procs k2 := by
    intro k2
    cases k <;> cases k2 <;> rfl
  refine ⟨?_, ?_, ?_, ?_, ?_, ?_, ?_⟩
  · intro e2 k2
    rw [hthreads2, countThreads_replace_eq e2 k2 pre post ⟨e, k, .invoking op⟩
      ⟨e, k, .inFlight op⟩ rfl rfl, ← hth]
    exact uniq e2 k2
  · intro th hmem
    rw [hthreads2] at hmem
    rw [hprocs2]
    rcases List.mem_append.mp hmem with hh | hh
    · exact tip th (hth ▸ List.mem_append_left _ hh)
    · rcases List.mem_cons.mp hh with hh2 | hh2
      · subst hh2
        exact tip ⟨e, k, .invoking op⟩
          (hth ▸ List.mem_append_right _ (List.mem_cons_self _ _))
      · exact tip th (hth ▸ List.mem_append_right _ (List.mem_cons_of_mem _ hh2))
  · intro e2 k2 op2 hop2
    rw [hqall] at hop2
    exact qown e2 k2 op2 hop2
  · intro th hmem
    rw [hthreads2] at hmem
    rcases List.mem_append.mp hmem with hh | hh
    · exact hown th (hth ▸ List.mem_append_left _ hh)
    · rcases List.mem_cons.mp hh with hh2 | hh2
      · subst hh2
        intro op2 hop2
        simp [heldOf] at hop2
      · exact hown th (hth ▸ List.mem_append_right _ (List.mem_cons_of_mem _ hh2))
  · intro e2 k2
    rw [hst, henq2]
    exact cnt e2 k2
  · intro e2 k2
    rw [henq2, hqall, hthreads2]
    by_cases hk2 : k2 = k
    · subst hk2
      rw [hexecself]
      by_cases he2 : e2 = e
      · subst he2
        have huniq := uniq e2 k2
        rw [hth] at huniq
        obtain ⟨hp1, hp2⟩ := heldList_side_nil e2 k2 pre post _ rfl rfl huniq
        have hfifo := fifo e2 k2
        rw [hth] at hfifo
        simp only [heldList_append, heldList_cons, hp1, hp2] at hfifo ⊢
        simp only [heldOf, and_self, if_true, reduceIte] at hfifo ⊢
        rw [hfifo]
        have : emailOps e2 [op] = [op] := by
          simp [emailOps, hopem]
        rw [emailOps_append, this]
        simp
      · have hnm1 : ¬((⟨e, k2, Pc.invoking op⟩ : Thread).email = e2 ∧
            (⟨e, k2, Pc.invoking op⟩ : Thread).tkind = k2) := by
          simp only [Thread.email, Thread.tkind]
          exact fun hh => he2 hh.1.symm
        have hnm2 : ¬((⟨e, k2, Pc.inFlight op⟩ : Thread).email = e2 ∧
            (⟨e, k2, Pc.inFlight op⟩ : Thread).tkind = k2) := by
          simp only [Thread.email, Thread.tkind]
          exact fun hh => he2 hh.1.symm
        rw [heldList_replace_notmatch e2 k2 pre post _ _ hnm1 hnm2, ← hth]
        have hne : e ≠ e2 := fun hh => he2 hh.symm
        have : emailOps e2 [op] = [] := by
          simp [emailOps, hopem, hne]
        rw [emailOps_append, this, List.append_nil]
        exact fifo e2 k2
    · rw [hexecne k2 hk2]
      have hnm1 : ¬((⟨e, k, Pc.invoking op⟩ : Thread).email = e2 ∧
          (⟨e, k, Pc.invoking op⟩ : Thread).tkind = k2) := by
        simp only [Thread.email, Thread.tkind]
        exact fun hh => hk2 hh.2.symm
      have hnm2 : ¬((⟨e, k, Pc.inFlight op⟩ : Thread).email = e2 ∧
          (⟨e, k, Pc.inFlight op⟩ : Thread).tkind = k2) := by
        simp only [Thread.email, Thread.tkind]
        exact fun hh => hk2 hh.2.symm
      rw [heldList_replace_notmatch e2 k2 pre post _ _ hnm1 hnm2, ← hth]
      exact fifo e2 k2
  · intro e2 k2
    rw [hst, hthreads2]
    by_cases hm : e2 = e ∧ k2 = k
    · obtain ⟨he2, hk2⟩ := hm
      subst he2; subst hk2
      rw [hexecself]
      have hcb := cbound e2 k2
      rw [hth] at hcb
      have : emailOps e2 [op] = [op] := by
        simp [emailOps, hopem]
      rw [emailOps_append, this]
      simp only [execPhaseCount, pcCount_append, pcCount_cons] at hcb ⊢
      simp only [Thread.email, Thread.tkind, and_self, if_true, reduceIte,
        execWeight] at hcb ⊢
      simp only [List.length_append, List.length_cons, List.length_nil]
      omega
    · have hnm1 : ¬((⟨e, k, Pc.invoking op⟩ : Thread).email = e2 ∧
          (⟨e, k, Pc.invoking op⟩ : Thread).tkind = k2) := by
        simp only [Thread.email, Thread.tkind]
        tauto
      have hnm2 : ¬((⟨e, k, Pc.inFlight op⟩ : Thread).email = e2 ∧
          (⟨e, k, Pc.inFlight op⟩ : Thread).tkind = k2) := by
        simp only [Thread.email, Thread.tkind]
        tauto
      rw [show execPhaseCount e2 k2 (pre ++ ⟨e, k, Pc.inFlight op⟩ :: post) =
          execPhaseCount e2 k2 (pre ++ ⟨e, k, Pc.invoking op⟩ :: post) from by
        simp only [execPhaseCount, pcCount_append, pcCount_cons, if_neg hnm1,
          if_neg hnm2], ← hth]
      by_cases hk2 : k2 = k
      · subst hk2
        rw [hexecself, emailOps_append, List.length_append]
        have := cbound e2 k2
        omega
      · rw [hexecne k2 hk2]
        exact cbound e2 k2

theorem inv_countCompletedFn (s : GState) (pre post : List Thread) (e : String)
    (k : Kind) (op : Operation)
    (hth : s.threads = pre ++ ⟨e, k, .counting op⟩ :: post)
    (h : MInv s) : MInv (countCompletedFn s pre post e k) := by
  obtain ⟨uniq, tip, qown, hown, cnt, fifo, cbound⟩ := h
  have hthreads2 : (countCompletedFn s pre post e k).threads =
      pre ++ ⟨e, k, .clearing⟩ :: post := rfl
  have hqall : ∀ k2 e2, queueOf (countCompletedFn s pre post e k) k2 e2 =
      queueOf s k2 e2 := by
    intro k2 e2
    cases k2 <;> rfl
  have hstself : statusOf (countCompletedFn s pre post e k) e =
      (statusOf s e).incCompletedK k := by
    have hconv : statusOf (countCompletedFn s pre post e k) e =
        statusOf (modifyStatus s e fun u => u.incCompletedK k) e := rfl
    rw [hconv, statusOf_modifyStatus_self]
  have hstne : ∀ e2, e2 ≠ e → statusOf (countCompletedFn s pre post e k) e2 =
      statusOf s e2 := by
    intro e2 hne
    have hconv : statusOf (countCompletedFn s pre post e k) e2 =
        statusOf (modifyStatus s e fun u => u.incCompletedK k) e2 := rfl
    rw [hconv, statusOf_modifyStatus_ne _ _ _ _ hne]
  have henq2 : ∀ k2, (countCompletedFn s pre post e k).enqHist k2 = s.enqHist k2 := by
    intro k2
    cases k2 <;> rfl
  have hexec2 : ∀ k2, (countCompletedFn s pre post e k).execHist k2 = s.execHist k2 := by
    intro k2
    cases k2 <;> rfl
  have hprocs2 : ∀ k2, (countCompletedFn s pre post e k).procs k2 = s.procs k2 := by
    intro k2
    cases k2 <;> rfl
  refine ⟨?_, ?_, ?_, ?_, ?_, ?_, ?_⟩
  · intro e2 k2
    rw [hthreads2, countThreads_replace_eq e2 k2 pre post ⟨e, k, .counting op⟩
      ⟨e, k, .clearing⟩ rfl rfl, ← hth]
    exact uniq e2 k2
  · intro th hmem
    rw [hthreads2] at hmem
    rw [hprocs2]
    rcases List.mem_append.mp hmem with hh | hh
    · exact tip th (hth ▸ List.mem_append_left _ hh)
    · rcases List.mem_cons.mp hh with hh2 | hh2
      · subst hh2
        exact tip ⟨e, k, .counting op⟩
          (hth ▸ List.mem_append_right _ (List.mem_cons_self _ _))
      · exact tip th (hth ▸ List.mem_append_right _ (List.mem_cons_of_mem _ hh2))
  · intro e2 k2 op2 hop2
    rw [hqall] at hop2
    exact qown e2 k2 op2 hop2
  · intro th hmem
    rw [hthreads2] at hmem
    rcases List.mem_append.mp hmem with hh | hh
    · exact hown th (hth ▸ List.mem_append_left _ hh)
    · rcases List.mem_cons.mp hh with hh2 | hh2
      · subst hh2
        intro op2 hop2
        simp [heldOf] at hop2
      · exact hown th (hth ▸ List.mem_append_right _ (List.mem_cons_of_mem _ hh2))
  · intro e2 k2
    rw [henq2]
    by_cases he2 : e2 = e
    · subst he2
      rw [hstself]
      simp only [totalQueuedK_incCompletedK]
      exact cnt e2 k2
    · rw [hstne e2 he2]
      exact cnt e2 k2
  · intro e2 k2
    rw [henq2, hexec2, hqall, hthreads2,
      heldList_replace_eq e2 k2 pre post ⟨e, k, .counting op⟩ ⟨e, k, .clearing⟩
        rfl rfl rfl, ← hth]
    exact fifo e2 k2
  · intro e2 k2
    rw [hexec2, hthreads2]
    have hcb := cbound e2 k2
    rw [hth] at hcb
    by_cases hm : e2 = e ∧ k2 = k
    · obtain ⟨he2, hk2⟩ := hm
      subst he2; subst hk2
      rw [hstself, completedK_incCompletedK_self]
      simp only [execPhaseCount, pcCount_append, pcCount_cons] at hcb ⊢
      simp only [Thread.email, Thread.tkind, and_self, if_true, reduceIte,
        execWeight] at hcb ⊢
      omega
    · have hnm : ¬((⟨e, k, Pc.counting op⟩ : Thread).email = e2 ∧
          (⟨e, k, Pc.counting op⟩ : Thread).tkind = k2) := by
        simp only [Thread.email, Thread.tkind]
        tauto
      have hnm2 : ¬((⟨e, k, Pc.clearing⟩ : Thread).email = e2 ∧
          (⟨e, k, Pc.clearing⟩ : Thread).tkind = k2) := by
        simp only [Thread.email, Thread.tkind]
        tauto
      have hcnteq : execPhaseCount e2 k2 (pre ++ (⟨e, k, Pc.clearing⟩ : Thread) :: post) =
          execPhaseCount e2 k2 (pre ++ (⟨e, k, Pc.counting op⟩ : Thread) :: post) := by
        simp only [execPhaseCount, pcCount_append, pcCount_cons, if_neg hnm,
          if_neg hnm2]
      rw [hcnteq]
      by_cases he2 : e2 = e
      · subst he2
        have hk2 : k2 ≠ k := by tauto
        rw [hstself, completedK_incCompletedK_ne _ _ _ hk2]
        exact hcb
      · rw [hstne e2 he2]
        exact hcb

theorem inv_cleanupFn (s : GState) (pre post : List Thread) (e : String) (k : Kind)
    (hth : s.threads = pre ++ ⟨e, k, .finished⟩ :: post)
    (h : MInv s) : MInv (cleanupFn s pre post e k) := by
  obtain ⟨uniq, tip, qown, hown, cnt, fifo, cbound⟩ := h
  have hthreads2 : (cleanupFn s pre post e k).threads = pre ++ post := by
    cases k <;> rfl
  have hqall : ∀ k2 e2, queueOf (cleanupFn s pre post e k) k2 e2 = queueOf s k2 e2 := by
    intro k2 e2
    cases k <;> cases k2 <;> rfl
  have hstself : statusOf (cleanupFn s pre post e k) e =
      ((statusOf s e).setActiveK k false).setCurrentOpK k none := by
    have hconv : statusOf (cleanupFn s pre post e k) e =
        statusOf (modifyStatus (s.setProcs k ((s.procs k).erase e)) e
          fun u => (u.setActiveK k false).setCurrentOpK k none) e := rfl
    rw [hconv, statusOf_modifyStatus_self, statusOf_setProcs]
  have hstne : ∀ e2, e2 ≠ e → statusOf (cleanupFn s pre post e k) e2 = statusOf s e2 := by
    intro e2 hne
    have hconv : statusOf (cleanupFn s pre post e k) e2 =
        statusOf (modifyStatus (s.setProcs k ((s.procs k).erase e)) e
          fun u => (u.setActiveK k false).setCurrentOpK k none) e2 := rfl
    rw [hconv, statusOf_modifyStatus_ne _ _ _ _ hne, statusOf_setProcs]
  have henq2 : ∀ k2, (cleanupFn s pre post e k).enqHist k2 = s.enqHist k2 := by
    intro k2
    cases k <;> cases k2 <;> rfl
  have hexec2 : ∀ k2, (cleanupFn s pre post e k).execHist k2 = s.execHist k2 := by
    intro k2
    cases k <;> cases k2 <;> rfl
  have hprocsself : (cleanupFn s pre post e k).procs k = (s.procs k).erase e := by
    cases k <;> rfl
  have hprocsne : ∀ k2, k2 ≠ k → (cleanupFn s pre post e k).procs k2 = s.procs k2 := by
    intro k2 hne
    cases k <;> cases k2 <;> first | exact absurd rfl hne | rfl
  refine ⟨?_, ?_, ?_, ?_, ?_, ?_, ?_⟩
  · intro e2 k2
    rw [hthreads2]
    have := uniq e2 k2
    rw [hth] at this
    simp only [countThreads, pcCount_append, pcCount_cons] at this ⊢
    omega
  · intro th hmem
    rw [hthreads2] at hmem
    have hmem_s : th ∈ s.threads := by
      rw [hth]
      rcases List.mem_append.mp hmem with hh | hh
      · exact List.mem_append_left _ hh
      · exact List.mem_append_right _ (List.mem_cons_of_mem _ hh)
    have htip := tip th hmem_s
    by_cases htk : th.tkind = k
    · rw [htk, hprocsself]
      by_cases hem : th.email = e
      · exfalso
        have hpos : 0 < countThreads e k (pre ++ post) :=
          countThreads_pos_of_mem e k (pre ++ post) th hmem hem htk
        have huniq := uniq e k
        rw [hth] at huniq
        simp only [countThreads, pcCount_append, pcCount_cons, Thread.email,
          Thread.tkind, and_self, if_true, reduceIte] at hpos huniq
        omega
      · exact List.mem_erase_of_ne hem |>.mpr (htk ▸ htip)
    · rw [hprocsne th.tkind htk]
      exact htip
  · intro e2 k2 op2 hop2
    rw [hqall] at hop2
    exact qown e2 k2 op2 hop2
  · intro th hmem
    rw [hthreads2] at hmem
    rcases List.mem_append.mp hmem with hh | hh
    · exact hown th (hth ▸ List.mem_append_left _ hh)
    · exact hown th (hth ▸ List.mem_append_right _ (List.mem_cons_of_mem _ hh))
  · intro e2 k2
    rw [henq2]
    by_cases he2 : e2 = e
    · subst he2
      rw [hstself]
      simp only [totalQueuedK_setCurrentOpK, totalQueuedK_setActiveK]
      exact cnt e2 k2
    · rw [hstne e2 he2]
      exact cnt e2 k2
  · intro e2 k2
    rw [henq2, hexec2, hqall, hthreads2]
    have hfifo := fifo e2 k2
    rw [hth] at hfifo
    simp only [heldList_append, heldList_cons] at hfifo
    have : (if (⟨e, k, Pc.finished⟩ : Thread).email = e2 ∧
        (⟨e, k, Pc.finished⟩ : Thread).tkind = k2 then heldOf Pc.finished else []) = [] := by
      simp [heldOf]
    rw [this] at hfifo
    simpa [heldList_append] using hfifo
  · intro e2 k2
    rw [hexec2, hthreads2]
    have hcb := cbound e2 k2
    rw [hth] at hcb
    have hcount : execPhaseCount e2 k2 (pre ++ post) ≤
        execPhaseCount e2 k2 (pre ++ (⟨e, k, Pc.finished⟩ : Thread) :: post) := by
      simp only [execPhaseCount, pcCount_append, pcCount_cons]
      omega
    by_cases he2 : e2 = e
    · subst he2
      rw [hstself]
      simp only [completedK_setCurrentOpK, completedK_setActiveK]
      omega
    · rw [hstne e2 he2]
      omega

/-- One atomic transition preserves the master invariant. -/

theorem step_inv {s s2 : GState} (hstep : Step s s2) (h : MInv s) : MInv s2 := by
  cases hstep with
  | enqueue e p => exact inv_enqueueFn s e p h
  | statusRead e => exact inv_materializeFn s e h
  | allStatusRead => exact inv_foldl_materializeFn (allEmailsOf s) s h
  | popSome pre post e k op rest hth hq => exact inv_popSomeFn s pre post e k op rest hth hq h
  | popEmpty pre post e k hth hq => exact inv_popEmptyFn s pre post e k hth h
  | setCurrent pre post e k op hth => exact inv_setCurrentFn s pre post e k op hth h
  | execBegin pre post e k op hth => exact inv_execBeginFn s pre post e k op hth h
  | execEnd pre post e k op res hth => exact inv_execEndFn s pre post e k op res hth h
  | countCompleted pre post e k op hth => exact inv_countCompletedFn s pre post e k op hth h
  | clearCurrent pre post e k hth => exact inv_clearCurrentFn s pre post e k hth h
  | cleanup pre post e k hth => exact inv_cleanupFn s pre post e k hth h

/-- The master invariant holds in every reachable manager state. -/

theorem reachable_inv {s : GState} (h : Reachable s) : MInv s := by
  induction h with
  | refl => exact inv_init
  | tail _ hstep ih => exact step_inv hstep ih

/- ----------------------------------------------------------------------
Concrete executions used as counterexamples and witnesses.
---------------------------------------------------------------------- -/

/-- Sample posting payload for account a. -/

theorem t8_reachable : Reachable t8 := by
  have h1 : Step initState t1 := Step.enqueue initState "a" samplePost
  have h2 : Step t1 t2 := Step.enqueue t1 "b" samplePost2
  have h3 : Step t2 t3 :=
    Step.popSome t2 [⟨"a", .post, .ready⟩] [] "b" .post opB [] (by decide) (by decide)
  have h4 : Step t3 t4 :=
    Step.setCurrent t3 [⟨"a", .post, .ready⟩] [] "b" .post opB (by decide)
  have h5 : Step t4 t5 :=
    Step.execBegin t4 [⟨"a", .post, .ready⟩] [] "b" .post opB (by decide)
  have h6 : Step t5 t6 :=
    Step.popSome t5 [] [⟨"b", .post, .inFlight opB⟩] "a" .post opA [] (by decide)
      (by decide)
  have h7 : Step t6 t7 :=
    Step.setCurrent t6 [] [⟨"b", .post, .inFlight opB⟩] "a" .post opA (by decide)
  have h8 : Step t7 t8 :=
    Step.execBegin t7 [] [⟨"b", .post, .inFlight opB⟩] "a" .post opA (by decide)
  exact Relation.ReflTransGen.tail
    (Relation.ReflTransGen.tail
      (Relation.ReflTransGen.tail
        (Relation.ReflTransGen.tail
          (Relation.ReflTransGen.tail
            (Relation.ReflTransGen.tail
              (Relation.ReflTransGen.tail
                (Relation.ReflTransGen.single h1) h2) h3) h4) h5) h6) h7) h8

/-- The renew operation of the single-crashing-renew scenario. -/

theorem r8_reachable : Reachable r8 := by
  have h1 : Step initState r1 := Step.enqueue initState "a" (.renew 5)
  have h2 : Step r1 r2 := Step.popSome r1 [] [] "a" .renew opR [] (by decide) (by decide)
  have h3 : Step r2 r3 := Step.setCurrent r2 [] [] "a" .renew opR (by decide)
  have h4 : Step r3 r4 := Step.execBegin r3 [] [] "a" .renew opR (by decide)
  have h5 : Step r4 r5 := Step.execEnd r4 [] [] "a" .renew opR none (by decide)
  have h6 : Step r5 r6 := Step.clearCurrent r5 [] [] "a" .renew (by decide)
  have h7 : Step r6 r7 := Step.popEmpty r6 [] [] "a" .renew (by decide) (by decide)
  have h8 : Step r7 r8 := Step.cleanup r7 [] [] "a" .renew (by decide)
  exact Relation.ReflTransGen.tail
    (Relation.ReflTransGen.tail
      (Relation.ReflTransGen.tail
        (Relation.ReflTransGen.tail
          (Relation.ReflTransGen.tail
            (Relation.ReflTransGen.tail
              (Relation.ReflTransGen.tail
                (Relation.ReflTransGen.single h1) h2) h3) h4) h5) h6) h7) h8

/-- First renew operation of the crash-isolation scenario. -/

theorem d15_reachable : Reachable d15 := by
  have h1 : Step initState d1 := Step.enqueue initState "a" (.renew 3)
  have h2 : Step d1 d2 := Step.enqueue d1 "a" (.renew 4)
  have h3 : Step d2 d3 :=
    Step.popSome d2 [] [] "a" .renew opR1 [opR2] (by decide) (by decide)
  have h4 : Step d3 d4 := Step.setCurrent d3 [] [] "a" .renew opR1 (by decide)
  have h5 : Step d4 d5 := Step.execBegin d4 [] [] "a" .renew opR1 (by decide)
  have h6 : Step d5 d6 := Step.execEnd d5 [] [] "a" .renew opR1 none (by decide)
  have h7 : Step d6 d7 := Step.clearCurrent d6 [] [] "a" .renew (by decide)
  have h8 : Step d7 d8 := Step.popSome d7 [] [] "a" .renew opR2 [] (by decide) (by decide)
  have h9 : Step d8 d9 := Step.setCurrent d8 [] [] "a" .renew opR2 (by decide)
  have h10 : Step d9 d10 := Step.execBegin d9 [] [] "a" .renew opR2 (by decide)
  have h11 : Step d10 d11 :=
    Step.execEnd d10 [] [] "a" .renew opR2 (some ⟨true, "ok"⟩) (by decide)
  have h12 : Step d11 d12 := Step.countCompleted d11 [] [] "a" .renew opR2 (by decide)
  have h13 : Step d12 d13 := Step.clearCurrent d12 [] [] "a" .renew (by decide)
  have h14 : Step d13 d14 := Step.popEmpty d13 [] [] "a" .renew (by decide) (by decide)
  have h15 : Step d14 d15 := Step.cleanup d14 [] [] "a" .renew (by decide)
  exact Relation.ReflTransGen.tail
    (Relation.ReflTransGen.tail
      (Relation.ReflTransGen.tail
        (Relation.ReflTransGen.tail
          (Relation.ReflTransGen.tail
            (Relation.ReflTransGen.tail
              (Relation.ReflTransGen.tail
                (Relation.ReflTransGen.tail
                  (Relation.ReflTransGen.tail
                    (Relation.ReflTransGen.tail
                      (Relation.ReflTransGen.tail
                        (Relation.ReflTransGen.tail
                          (Relation.ReflTransGen.tail
                            (Relation.ReflTransGen.tail
                              (Relation.ReflTransGen.single h1)
                              h2) h3) h4) h5) h6) h7) h8) h9) h10) h11) h12) h13) h14) h15

/- Counter characterisations of the individual sections, used for the
monotonicity and enqueue-acknowledgement claims. -/

theorem statusOf_popSomeFn (s : GState) (pre post : List Thread) (e : String)
    (k : Kind) (op : Operation) (rest : List Operation) (e2 : String) :
    statusOf (popSomeFn s pre post e k op rest) e2 = statusOf s e2 := by
  cases k <;> rfl

theorem statusOf_execBeginFn (s : GState) (pre post : List Thread) (e : String)
    (k : Kind) (op : Operation) (e2 : String) :
    statusOf (execBeginFn s pre post e k op) e2 = statusOf s e2 := by
  cases k <;> rfl

theorem statusOf_execEndFn (s : GState) (pre post : List Thread) (e : String)
    (k : Kind) (op : Operation) (res : Option ExecResult) (e2 : String) :
    statusOf (execEndFn s pre post e k op res) e2 = statusOf s e2 := by
  cases res <;> rfl

theorem counters_setCurrentFn (s : GState) (pre post : List Thread) (e : String)
    (k : Kind) (op : Operation) (e2 : String) (k2 : Kind) :
    (statusOf (setCurrentFn s pre post e k op) e2).totalQueuedK k2 =
      (statusOf s e2).totalQueuedK k2 ∧
    (statusOf (setCurrentFn s pre post e k op) e2).completedK k2 =
      (statusOf s e2).completedK k2 := by
  have hconv : statusOf (setCurrentFn s pre post e k op) e2 =
      statusOf (modifyStatus s e fun u =>
        (u.setCurrentOpK k (some (kindLabel k))).setLastActivity (some s.time)) e2 := rfl
  rw [hconv]
  by_cases he2 : e2 = e
  · subst he2
    rw [statusOf_modifyStatus_self]
    simp
  · rw [statusOf_modifyStatus_ne _ _ _ _ he2]
    simp

theorem counters_popEmptyFn (s : GState) (pre post : List Thread) (e : String)
    (k : Kind) (e2 : String) (k2 : Kind) :
    (statusOf (popEmptyFn s pre post e k) e2).totalQueuedK k2 =
      (statusOf s e2).totalQueuedK k2 ∧
    (statusOf (popEmptyFn s pre post e k) e2).completedK k2 =
      (statusOf s e2).completedK k2 := by
  have hconv : statusOf (popEmptyFn s pre post e k) e2 =
      statusOf (modifyStatus (s.setQueues k (dmat [] (s.queues k) e)) e
        fun u => u.setActiveK k false) e2 := rfl
  rw [hconv]
  by_cases he2 : e2 = e
  · subst he2
    rw [statusOf_modifyStatus_self]
    simp
  · rw [statusOf_modifyStatus_ne _ _ _ _ he2]
    simp

theorem counters_clearCurrentFn (s : GState) (pre post : List Thread) (e : String)
    (k : Kind) (e2 : String) (k2 : Kind) :
    (statusOf (clearCurrentFn s pre post e k) e2).totalQueuedK k2 =
      (statusOf s e2).totalQueuedK k2 ∧
    (statusOf (clearCurrentFn s pre post e k) e2).completedK k2 =
      (statusOf s e2).completedK k2 := by
  have hconv : statusOf (clearCurrentFn s pre post e k) e2 =
      statusOf (modifyStatus s e fun u => u.setCurrentOpK k none) e2 := rfl
  rw [hconv]
  by_cases he2 : e2 = e
  · subst he2
    rw [statusOf_modifyStatus_self]
    simp
  · rw [statusOf_modifyStatus_ne _ _ _ _ he2]
    simp

theorem counters_cleanupFn (s : GState) (pre post : List Thread) (e : String)
    (k : Kind) (e2 : String) (k2 : Kind) :
    (statusOf (cleanupFn s pre post e k) e2).totalQueuedK k2 =
      (statusOf s e2).totalQueuedK k2 ∧
    (statusOf (cleanupFn s pre post e k) e2).completedK k2 =
      (statusOf s e2).completedK k2 := by
  have hconv : statusOf (cleanupFn s pre post e k) e2 =
      statusOf (modifyStatus (s.setProcs k ((s.procs k).erase e)) e
        fun u => (u.setActiveK k false).setCurrentOpK k none) e2 := rfl
  rw [hconv]
  by_cases he2 : e2 = e
  · subst he2
    rw [statusOf_modifyStatus_self, statusOf_setProcs]
    simp
  · rw [statusOf_modifyStatus_ne _ _ _ _ he2, statusOf_setProcs]
    simp

theorem counters_countCompletedFn (s : GState) (pre post : List Thread) (e : String)
    (k : Kind) (e2 : String) (k2 : Kind) :
    (statusOf (countCompletedFn s pre post e k) e2).totalQueuedK k2 =
      (statusOf s e2).totalQueuedK k2 ∧
    (statusOf s e2).completedK k2 ≤
      (statusOf (countCompletedFn s pre post e k) e2).completedK k2 := by
  have hconv : statusOf (countCompletedFn s pre post e k) e2 =
      statusOf (modifyStatus s e fun u => u.incCompletedK k) e2 := rfl
  rw [hconv]
  by_cases he2 : e2 = e
  · subst he2
    rw [statusOf_modifyStatus_self]
    constructor
    · simp
    · by_cases hk2 : k2 = k
      · subst hk2
        simp
      · rw [completedK_incCompletedK_ne _ _ _ hk2]
  · rw [statusOf_modifyStatus_ne _ _ _ _ he2]
    simp

theorem counters_startProcessorFn (s : GState) (e : String) (k : Kind)
    (e2 : String) (k2 : Kind) :
    (statusOf (startProcessorFn s e k) e2).totalQueuedK k2 =
      (statusOf s e2).totalQueuedK k2 ∧
    (statusOf (startProcessorFn s e k) e2).completedK k2 =
      (statusOf s e2).completedK k2 := by
  by_cases hmem : e ∈ s.procs k
  · simp [startProcessorFn, hmem]
  · simp only [startProcessorFn, if_neg hmem]
    have hconv : ∀ X : GState, ∀ ts : List Thread,
        statusOf ({ X with threads := ts } : GState) e2 = statusOf X e2 :=
      fun X ts => rfl
    rw [hconv]
    by_cases he2 : e2 = e
    · subst he2
      rw [statusOf_modifyStatus_self, statusOf_setProcs]
      simp
    · rw [statusOf_modifyStatus_ne _ _ _ _ he2, statusOf_setProcs]
      simp

theorem counters_enqueueFn (s : GState) (e : String) (p : OpPayload)
    (e2 : String) (k2 : Kind) :
    (statusOf (enqueueFn s e p) e2).totalQueuedK k2 =
      ((statusOf (enqueueCoreFn s e p) e2).totalQueuedK k2) ∧
    (statusOf (enqueueFn s e p) e2).completedK k2 =
      ((statusOf (enqueueCoreFn s e p) e2).completedK k2) := by
  by_cases hact : (statusOf (enqueueCoreFn s e p) e).activeK p.kind
  · simp [enqueueFn, hact]
  · simp only [enqueueFn, if_neg hact]
    exact counters_startProcessorFn (enqueueCoreFn s e p) e p.kind e2 k2

theorem queueOf_startProcessorFn (s : GState) (e : String) (k : Kind)
    (k2 : Kind) (e2 : String) :
    queueOf (startProcessorFn s e k) k2 e2 = queueOf s k2 e2 := by
  by_cases hmem : e ∈ s.procs k
  · simp [startProcessorFn, hmem]
  · simp only [startProcessorFn, if_neg hmem]
    cases k <;> cases k2 <;> rfl

theorem execHist_startProcessorFn (s : GState) (e : String) (k : Kind) (k2 : Kind) :
    (startProcessorFn s e k).execHist k2 = s.execHist k2 := by
  by_cases hmem : e ∈ s.procs k
  · simp [startProcessorFn, hmem]
  · simp only [startProcessorFn, if_neg hmem]
    cases k <;> cases k2 <;> rfl

theorem queueOf_enqueueFn (s : GState) (e : String) (p : OpPayload)
    (k2 : Kind) (e2 : String) :
    queueOf (enqueueFn s e p) k2 e2 = queueOf (enqueueCoreFn s e p) k2 e2 := by
  by_cases hact : (statusOf (enqueueCoreFn s e p) e).activeK p.kind
  · simp [enqueueFn, hact]
  · simp only [enqueueFn, if_neg hact]
    exact queueOf_startProcessorFn (enqueueCoreFn s e p) e p.kind k2 e2

theorem execHist_enqueueFn (s : GState) (e : String) (p : OpPayload) (k2 : Kind) :
    (enqueueFn s e p).execHist k2 = s.execHist k2 := by
  by_cases hact : (statusOf (enqueueCoreFn s e p) e).activeK p.kind
  · simp [enqueueFn, hact, enqueueCore_execHist]
  · simp only [enqueueFn, if_neg hact]
    rw [execHist_startProcessorFn, enqueueCore_execHist]

theorem lookup_map_key (f : String → StatusSnapshot) (es : List String) (e : String)
    (h : e ∈ es) : List.lookup e (es.map fun x => (x, f x)) = some (f e) := by
  induction es with
  | nil => simp at h
  | cons a rest ih =>
    by_cases he : e = a
    · subst he
      simp [List.lookup]
    · rcases List.mem_cons.mp h with h1 | h1
      · exact absurd h1 he
      · have hbeq : (e == a) = false := beq_eq_false_iff_ne.mpr he
        simpa [List.lookup, hbeq] using ih h1

/- ----------------------------------------------------------------------
Claim theorems.
---------------------------------------------------------------------- -/

/-- C1 counterexample: the claimed SYSTEM-WIDE per-kind exclusivity fails on
the code: the manager keeps one post worker per email, so after enqueueing a
post for account a and one for account b and letting both workers reach their
executor call, a reachable state has TWO post-executor invocations in flight
at once. -/

theorem claim1_system_wide_exclusivity_cex :
    Reachable t8 ∧ sysInFlight Kind.post t8.threads = 2 :=
  ⟨t8_reachable, by decide⟩

/-- C1 (amended): per-kind exclusivity holds PER ACCOUNT, not system-wide: in
every reachable manager state, for every account and kind, at most one
executor invocation of that kind for that account is in flight. -/

theorem claim1_per_account_exclusivity (s : GState) (h : Reachable s)
    (e : String) (k : Kind) : inFlightCount e k s.threads ≤ 1 :=
  Nat.le_trans
    (pcCount_le_countThreads flightWeight
      (fun pc => by cases pc <;> simp [flightWeight]) e k s.threads)
    ((reachable_inv h).uniq e k)

/-- Witness for the amended C1 at the concrete reachable state t8. -/

theorem claim1_per_account_exclusivity_witness :
    inFlightCount "a" Kind.post t8.threads ≤ 1 :=
  claim1_per_account_exclusivity t8 t8_reachable "a" Kind.post

/-- C2 counterexample: global cross-account FIFO fails on the code: with the
submission order a then b (same kind), a reachable state has the executor
invoked for the operation of b first. -/

theorem claim2_global_fifo_cex :
    Reachable t8 ∧ (t8.enqHist Kind.post).map Operation.email = ["a", "b"] ∧
      (t8.execHist Kind.post).map Operation.email = ["b", "a"] :=
  ⟨t8_reachable, by decide, by decide⟩

/-- C2 (amended): FIFO holds PER ACCOUNT within one kind: in every reachable
state, the submission history of an account and kind equals its executor
invocation history followed by the popped-but-not-yet-invoked operations
followed by the pending queue — in particular the invocation order of the
operations of one account is exactly their submission order. -/

theorem claim2_per_account_fifo (s : GState) (h : Reachable s)
    (e : String) (k : Kind) :
    emailOps e (s.enqHist k) =
      emailOps e (s.execHist k) ++ heldList e k s.threads ++ queueOf s k e :=
  (reachable_inv h).fifo e k

/-- Witness for the amended C2 at the concrete reachable state t8. -/

theorem claim2_per_account_fifo_witness :
    emailOps "a" (t8.enqHist Kind.post) =
      emailOps "a" (t8.execHist Kind.post) ++ heldList "a" Kind.post t8.threads ++
        queueOf t8 Kind.post "a" :=
  claim2_per_account_fifo t8 t8_reachable "a" Kind.post

/-- C3 counterexample: the completed counter is NOT incremented when the
executor raises: running the one-crashing-renew scenario to completion leaves
renews_completed at 0, not 1 as claimed (the increment sits inside the try
block after the executor call, so the except path skips it). -/

theorem claim3_crash_counted_cex :
    Reachable r8 ∧ (statusOf r8 "a").renews_completed = 0 ∧
      queueOf r8 Kind.renew "a" = [] ∧ r8.threads = [] ∧
      ¬(statusOf r8 "a").renews_completed = 1 :=
  ⟨r8_reachable, by decide, by decide, by decide, by decide⟩

/-- C3 (amended): the completed counter is incremented exactly on the
normal-return path, regardless of the success flag in the returned result
dict; when the executor raises, the increment is skipped, so the
one-crashing-renew scenario ends with renews_completed = 0 and an empty
queue. -/

theorem claim3_completed_counts_returns_only (s : GState) (pre post : List Thread)
    (e : String) (k : Kind) (op : Operation)
    (hth : s.threads = pre ++ ⟨e, k, .inFlight op⟩ :: post) :
    (∀ r : ExecResult,
      Step s (execEndFn s pre post e k op (some r)) ∧
      (statusOf (countCompletedFn (execEndFn s pre post e k op (some r)) pre post e k)
          e).completedK k = (statusOf s e).completedK k + 1) ∧
    (Step s (execEndFn s pre post e k op none) ∧
      (statusOf (execEndFn s pre post e k op none) e).completedK k =
      (statusOf s e).completedK k) ∧
    (statusOf r8 "a").renews_completed = 0 ∧ queueOf r8 Kind.renew "a" = [] := by
  refine ⟨?_, ⟨Step.execEnd s pre post e k op none hth, ?_⟩, by decide, by decide⟩
  · intro r
    refine ⟨Step.execEnd s pre post e k op (some r) hth, ?_⟩
    have h1 : statusOf (execEndFn s pre post e k op (some r)) e = statusOf s e :=
      statusOf_execEndFn s pre post e k op (some r) e
    have h2 : statusOf (countCompletedFn (execEndFn s pre post e k op (some r))
        pre post e k) e =
        statusOf (modifyStatus (execEndFn s pre post e k op (some r)) e
          fun u => u.incCompletedK k) e := rfl
    rw [h2, statusOf_modifyStatus_self, h1, completedK_incCompletedK_self]
  · rw [statusOf_execEndFn]

/-- Witness for the amended C3 at the concrete reachable state r4, with a
result whose success flag is false. -/

theorem claim3_completed_counts_returns_only_witness :
    ((statusOf (countCompletedFn (execEndFn r4 [] [] "a" Kind.renew opR
        (some ⟨false, "failed"⟩)) [] [] "a" Kind.renew) "a").completedK Kind.renew =
      (statusOf r4 "a").completedK Kind.renew + 1) ∧
    ((statusOf (execEndFn r4 [] [] "a" Kind.renew opR none) "a").completedK Kind.renew =
      (statusOf r4 "a").completedK Kind.renew) :=
  ⟨((claim3_completed_counts_returns_only r4 [] [] "a" Kind.renew opR (by decide)).1
      ⟨false, "failed"⟩).2,
    (claim3_completed_counts_returns_only r4 [] [] "a" Kind.renew opR (by decide)).2.1.2⟩

/-- C4: an executor crash is caught at the worker boundary: the crash
transition leaves every queue unchanged (the operation is dropped, not
re-queued), does not touch the invocation history (no retry), moves the worker
to the descriptor-clearing point of the loop (the worker survives and loops),
and is itself a legal manager transition; and in the concrete two-renew
scenario where the first executor raises, the second operation still executes
(both appear in the invocation history), the queue drains and only the second
is counted completed. -/

theorem claim4_crash_isolation (s : GState) (pre post : List Thread)
    (e : String) (k : Kind) (op : Operation)
    (hth : s.threads = pre ++ ⟨e, k, .inFlight op⟩ :: post) :
    (∀ k2 e2, queueOf (execEndFn s pre post e k op none) k2 e2 = queueOf s k2 e2) ∧
    (∀ k2, (execEndFn s pre post e k op none).execHist k2 = s.execHist k2) ∧
    ((execEndFn s pre post e k op none).threads = pre ++ ⟨e, k, .clearing⟩ :: post) ∧
    Step s (execEndFn s pre post e k op none) ∧
    (Reachable d15 ∧ d15.execHist Kind.renew = [opR1, opR2] ∧
      queueOf d15 Kind.renew "a" = [] ∧
      (statusOf d15 "a").renews_completed = 1 ∧ d15.threads = []) := by
  refine ⟨?_, ?_, rfl, Step.execEnd s pre post e k op none hth,
    d15_reachable, by decide, by decide, by decide, by decide⟩
  · intro k2 e2
    cases k2 <;> rfl
  · intro k2
    cases k2 <;> rfl

/-- Witness for C4 at the concrete reachable state d5. -/

theorem claim4_crash_isolation_witness :
    queueOf (execEndFn d5 [] [] "a" Kind.renew opR1 none) Kind.renew "a" =
      queueOf d5 Kind.renew "a" ∧
    (execEndFn d5 [] [] "a" Kind.renew opR1 none).execHist Kind.renew =
      d5.execHist Kind.renew ∧
    Step d5 (execEndFn d5 [] [] "a" Kind.renew opR1 none) :=
  ⟨(claim4_crash_isolation d5 [] [] "a" Kind.renew opR1 (by decide)).1 Kind.renew "a",
    (claim4_crash_isolation d5 [] [] "a" Kind.renew opR1 (by decide)).2.1 Kind.renew,
    (claim4_crash_isolation d5 [] [] "a" Kind.renew opR1 (by decide)).2.2.2.1⟩

/-- C5 counterexample: the status snapshot is NOT identical regardless of the
account identifier: after enqueueing one post for account a, the snapshot for
a (one post queued, worker active) differs from the snapshot for b (all
defaults). -/

theorem claim5_status_identifier_cex :
    Reachable t1 ∧ (getUserStatusFn t1 "a").1 ≠ (getUserStatusFn t1 "b").1 :=
  ⟨Relation.ReflTransGen.single (Step.enqueue initState "a" samplePost), by decide⟩

/-- C5 (amended): status is PER ACCOUNT: get_user_status returns the snapshot
of the account passed, and get_all_users_status returns one snapshot per known
account whose entry for each known account equals the per-account call. -/

theorem claim5_per_account_status (s : GState) (e : String)
    (h : e ∈ allEmailsOf s) :
    List.lookup e (getAllUsersStatusFn s).1 = some (getUserStatusFn s e).1 :=
  lookup_map_key (fun x => snapshotOf s x) (allEmailsOf s) e h

/-- Witness for the amended C5 at the concrete reachable state t1. -/

theorem claim5_per_account_status_witness :
    List.lookup "a" (getAllUsersStatusFn t1).1 = some (getUserStatusFn t1 "a").1 :=
  claim5_per_account_status t1 "a" (by decide)

/-- C6 counterexample: not every status access happens under the lock: the
current-operation descriptor and last_activity writes of lines 204-206 sit
between two lock blocks, outside both. -/

theorem claim6_lock_discipline_cex :
    accessesShared (CodeSection.currentOpWrite Kind.post) = true ∧
      underLock (CodeSection.currentOpWrite Kind.post) = false := by
  decide

/-- C6 (amended): the queue pops and appends, the counter updates, the
processor lifecycle sections and the snapshot reads all run under the single
lock, and the lock is never held across the executor invocation; but the
current-operation descriptor writes (set and clear) and the diagnostic
queue-length and counter reads in prints run WITHOUT the lock. -/

theorem claim6_lock_discipline_amended (k : Kind) :
    underLock (CodeSection.enqueueSection k) = true ∧
    underLock (CodeSection.popOrFinish k) = true ∧
    underLock (CodeSection.completedUpdate k) = true ∧
    underLock (CodeSection.cleanupSection k) = true ∧
    underLock CodeSection.statusReadSection = true ∧
    underLock CodeSection.allStatusReadSection = true ∧
    underLock (CodeSection.executorCall k) = false ∧
    accessesShared (CodeSection.executorCall k) = false ∧
    underLock (CodeSection.currentOpWrite k) = false ∧
    mutatesShared (CodeSection.currentOpWrite k) = true ∧
    underLock (CodeSection.currentOpClear k) = false ∧
    mutatesShared (CodeSection.currentOpClear k) = true ∧
    underLock (CodeSection.initialLenPrint k) = false ∧
    accessesShared (CodeSection.initialLenPrint k) = true ∧
    underLock (CodeSection.remainingLenPrint k) = false ∧
    underLock (CodeSection.finalCompletedPrint k) = false := by
  cases k <;> decide

/-- C7: at most one worker is bound to any one queue at any time: in every
reachable manager state, for every account and kind, the number of workers of
that account and kind is at most one (the lazy-start check under the lock and
the processor-dict membership test prevent duplicate spawns). -/

theorem claim7_single_processor_per_queue (s : GState) (h : Reachable s)
    (e : String) (k : Kind) : countThreads e k s.threads ≤ 1 :=
  (reachable_inv h).uniq e k

/-- Witness for C7 at the concrete reachable state t8. -/

theorem claim7_single_processor_per_queue_witness :
    countThreads "b" Kind.post t8.threads ≤ 1 :=
  claim7_single_processor_per_queue t8 t8_reachable "b" Kind.post

/-- C8 counterexample: get_user_status is NOT side-effect free: reading the
status of an unknown account materialises default entries in the status dict
and both queue dicts (defaultdict reads), and the new key is observable
through get_all_users_status. -/

theorem claim8_side_effect_free_cex :
    (getUserStatusFn initState "a").2 ≠ initState ∧
      (getAllUsersStatusFn ((getUserStatusFn initState "a").2)).1 ≠
        (getAllUsersStatusFn initState).1 := by
  constructor
  · decide
  · decide

/-- C8 (amended): get_user_status changes no observable value — every status
entry, every queue, the workers, the processor dicts and the histories are
unchanged up to defaultdict key materialisation — and repeated calls with no
intervening step return identical snapshots; but the materialisation makes it
not strictly side-effect free on a fresh account. -/

theorem claim8_status_read_amended (s : GState) (e : String) :
    (getUserStatusFn (getUserStatusFn s e).2 e).1 = (getUserStatusFn s e).1 ∧
    (∀ e2, statusOf (getUserStatusFn s e).2 e2 = statusOf s e2) ∧
    (∀ k e2, queueOf (getUserStatusFn s e).2 k e2 = queueOf s k e2) ∧
    ((getUserStatusFn s e).2.threads = s.threads) ∧
    (∀ k, (getUserStatusFn s e).2.procs k = s.procs k) ∧
    (∀ k, (getUserStatusFn s e).2.enqHist k = s.enqHist k) ∧
    (∀ k, (getUserStatusFn s e).2.execHist k = s.execHist k) := by
  refine ⟨?_, ?_, ?_, rfl, ?_, ?_, ?_⟩
  · show snapshotOf (materializeFn s e) e = snapshotOf s e
    exact snapshotOf_materializeFn s e e
  · intro e2
    exact statusOf_materializeFn s e e2
  · intro k e2
    exact queueOf_materializeFn s e k e2
  · intro k
    exact procs_materializeFn s e k
  · intro k
    exact enqHist_materializeFn s e k
  · intro k
    exact execHist_materializeFn s e k

/-- C9: both facade enqueue functions construct one operation, append it to
the queue of their kind for the given account, increment the matching queued
counter by exactly one, perform no execution (the invocation history is
untouched and the completed counter unchanged), and return an
acknowledgement dict with status "queued", the message, and the status
snapshot taken after the append; the renew facade fills in 20 when the count
is omitted. -/

theorem claim9_enqueue_ack (s : GState) (email title description : String)
    (price : Int) (image_path : String) (rc : Nat) :
    ((post_to_marketplace_sequential s email title description price image_path).1.status
        = "queued") ∧
    ((post_to_marketplace_sequential s email title description price image_path).1.message
        = "Posting operation added to queue for " ++ email) ∧
    ((post_to_marketplace_sequential s email title description price image_path).1.user_status
        = (getUserStatusFn
            (enqueueFn s email (.post ⟨title, description, price, image_path⟩)) email).1) ∧
    (queueOf (post_to_marketplace_sequential s email title description price image_path).2
        Kind.post email =
      queueOf s Kind.post email ++
        [⟨email, .post ⟨title, description, price, image_path⟩, s.time⟩]) ∧
    ((statusOf (post_to_marketplace_sequential s email title description price
        image_path).2 email).totalQueuedK Kind.post =
      (statusOf s email).totalQueuedK Kind.post + 1) ∧
    ((statusOf (post_to_marketplace_sequential s email title description price
        image_path).2 email).completedK Kind.post =
      (statusOf s email).completedK Kind.post) ∧
    ((post_to_marketplace_sequential s email title description price image_path).2.execHist
        Kind.post = s.execHist Kind.post) ∧
    ((renew_listings_sequential s email rc).1.status = "queued") ∧
    ((renew_listings_sequential s email rc).1.message
        = "Renewing operation added to queue for " ++ email) ∧
    (queueOf (renew_listings_sequential s email rc).2 Kind.renew email =
      queueOf s Kind.renew email ++ [⟨email, .renew rc, s.time⟩]) ∧
    ((statusOf (renew_listings_sequential s email rc).2 email).totalQueuedK Kind.renew =
      (statusOf s email).totalQueuedK Kind.renew + 1) ∧
    ((statusOf (renew_listings_sequential s email rc).2 email).completedK Kind.renew =
      (statusOf s email).completedK Kind.renew) ∧
    ((renew_listings_sequential s email rc).2.execHist Kind.renew =
      s.execHist Kind.renew) ∧
    (renew_listings_sequential_omitted s email = renew_listings_sequential s email 20) := by
  have hpost2 : (post_to_marketplace_sequential s email title description price
      image_path).2 =
      materializeFn (enqueueFn s email
        (.post ⟨title, description, price, image_path⟩)) email := rfl
  have hrenew2 : (renew_listings_sequential s email rc).2 =
      materializeFn (enqueueFn s email (.renew rc)) email := rfl
  refine ⟨rfl, rfl, rfl, ?_, ?_, ?_, ?_, rfl, rfl, ?_, ?_, ?_, ?_, rfl⟩
  · rw [hpost2, queueOf_materializeFn, queueOf_enqueueFn]
    have h3 := enqueueCore_queueOf_self s email
      (.post ⟨title, description, price, image_path⟩)
    simpa [OpPayload.kind] using h3
  · rw [hpost2, statusOf_materializeFn,
      (counters_enqueueFn s email (.post ⟨title, description, price, image_path⟩)
        email Kind.post).1,
      enqueueCore_statusOf_self]
    simp [OpPayload.kind]
  · rw [hpost2, statusOf_materializeFn,
      (counters_enqueueFn s email (.post ⟨title, description, price, image_path⟩)
        email Kind.post).2,
      enqueueCore_statusOf_self]
    simp [OpPayload.kind]
  · rw [hpost2, execHist_materializeFn, execHist_enqueueFn]
  · rw [hrenew2, queueOf_materializeFn, queueOf_enqueueFn]
    have h3 := enqueueCore_queueOf_self s email (.renew rc)
    simpa [OpPayload.kind] using h3
  · rw [hrenew2, statusOf_materializeFn,
      (counters_enqueueFn s email (.renew rc) email Kind.renew).1,
      enqueueCore_statusOf_self]
    simp [OpPayload.kind]
  · rw [hrenew2, statusOf_materializeFn,
      (counters_enqueueFn s email (.renew rc) email Kind.renew).2,
      enqueueCore_statusOf_self]
    simp [OpPayload.kind]
  · rw [hrenew2, execHist_materializeFn, execHist_enqueueFn]

/-- C10: the queued and completed counters are monotone under every manager
transition, and in every reachable state the completed counter of an account
and kind never exceeds its queued counter. -/

theorem claim10_counter_monotonicity :
    (∀ s s2 : GState, Step s s2 → ∀ e k,
      (statusOf s e).totalQueuedK k ≤ (statusOf s2 e).totalQueuedK k ∧
      (statusOf s e).completedK k ≤ (statusOf s2 e).completedK k) ∧
    (∀ s : GState, Reachable s → ∀ e k,
      (statusOf s e).completedK k ≤ (statusOf s e).totalQueuedK k) := by
  constructor
  · intro s s2 hstep e k
    cases hstep with
    | enqueue e2 p =>
      constructor
      · rw [(counters_enqueueFn s e2 p e k).1]
        by_cases he : e = e2
        · subst he
          rw [enqueueCore_statusOf_self]
          by_cases hk : k = p.kind
          · subst hk
            simp
          · rw [totalQueuedK_incTotalQueuedK_ne _ _ _ hk]
        · rw [enqueueCore_statusOf_ne s e2 p e he]
      · rw [(counters_enqueueFn s e2 p e k).2]
        by_cases he : e = e2
        · subst he
          rw [enqueueCore_statusOf_self]
          simp
        · rw [enqueueCore_statusOf_ne s e2 p e he]
    | statusRead e2 =>
      have hconv : (getUserStatusFn s e2).2 = materializeFn s e2 := rfl
      rw [hconv, statusOf_materializeFn]
      exact ⟨Nat.le_refl _, Nat.le_refl _⟩
    | allStatusRead =>
      have hconv : (getAllUsersStatusFn s).2 =
          (allEmailsOf s).foldl materializeFn s := rfl
      rw [hconv, statusOf_foldl_materializeFn]
      exact ⟨Nat.le_refl _, Nat.le_refl _⟩
    | popSome pre post e2 k2 op rest hth hq =>
      rw [statusOf_popSomeFn]
      exact ⟨Nat.le_refl _, Nat.le_refl _⟩
    | popEmpty pre post e2 k2 hth hq =>
      obtain ⟨h1, h2⟩ := counters_popEmptyFn s pre post e2 k2 e k
      exact ⟨Nat.le_of_eq h1.symm, Nat.le_of_eq h2.symm⟩
    | setCurrent pre post e2 k2 op hth =>
      obtain ⟨h1, h2⟩ := counters_setCurrentFn s pre post e2 k2 op e k
      exact ⟨Nat.le_of_eq h1.symm, Nat.le_of_eq h2.symm⟩
    | execBegin pre post e2 k2 op hth =>
      rw [statusOf_execBeginFn]
      exact ⟨Nat.le_refl _, Nat.le_refl _⟩
    | execEnd pre post e2 k2 op res hth =>
      rw [statusOf_execEndFn]
      exact ⟨Nat.le_refl _, Nat.le_refl _⟩
    | countCompleted pre post e2 k2 op hth =>
      obtain ⟨h1, h2⟩ := counters_countCompletedFn s pre post e2 k2 e k
      exact ⟨Nat.le_of_eq h1.symm, h2⟩
    | clearCurrent pre post e2 k2 hth =>
      obtain ⟨h1, h2⟩ := counters_clearCurrentFn s pre post e2 k2 e k
      exact ⟨Nat.le_of_eq h1.symm, Nat.le_of_eq h2.symm⟩
    | cleanup pre post e2 k2 hth =>
      obtain ⟨h1, h2⟩ := counters_cleanupFn s pre post e2 k2 e k
      exact ⟨Nat.le_of_eq h1.symm, Nat.le_of_eq h2.symm⟩
  · intro s h e k
    have hinv := reachable_inv h
    have h1 : (statusOf s e).completedK k ≤ (emailOps e (s.execHist k)).length :=
      Nat.le_trans (Nat.le_add_right _ _) (hinv.cbound e k)
    have h2 : (emailOps e (s.execHist k)).length ≤ (emailOps e (s.enqHist k)).length := by
      rw [hinv.fifo e k]
      simp only [List.length_append]
      omega
    rw [hinv.cnt e k]
    omega

/-- Witness for C10: monotonicity across the concrete enqueue step from t1 to
t2, and the bound at the concrete reachable state t8. -/

theorem claim10_counter_monotonicity_witness :
    ((statusOf t1 "a").totalQueuedK Kind.post ≤ (statusOf t2 "a").totalQueuedK Kind.post ∧
      (statusOf t1 "a").completedK Kind.post ≤ (statusOf t2 "a").completedK Kind.post) ∧
    (statusOf t8 "a").completedK Kind.post ≤ (statusOf t8 "a").totalQueuedK Kind.post :=
  ⟨claim10_counter_monotonicity.1 t1 t2 (Step.enqueue t1 "b" samplePost2) "a" Kind.post,
    claim10_counter_monotonicity.2 t8 t8_reachable "a" Kind.post⟩

